import Mathlib

set_option maxHeartbeats 1000000
set_option maxRecDepth 16000

namespace Packing

/-- Rectangle with a stable id (src/problem/rect.rs). -/
structure Rect where
  id : Nat
  width : Nat
  height : Nat
deriving DecidableEq, Repr

/-- Area of a rectangle (Rect::area). -/
def Rect.area (r : Rect) : Nat := r.width * r.height

/-- A rectangle anchored at its bottom-left corner (x, y) with a rotation flag
(src/problem/solution.rs, struct Placement). -/
structure Placement where
  rect : Rect
  x : Nat
  y : Nat
  rotated : Bool
deriving DecidableEq, Repr

/-- Effective width: width and height swap when rotated (Placement::width). -/
def Placement.width (p : Placement) : Nat :=
  if p.rotated then p.rect.height else p.rect.width

/-- Effective height (Placement::height). -/
def Placement.height (p : Placement) : Nat :=
  if p.rotated then p.rect.width else p.rect.height

/-- Axis-aligned intersection test (Placement::intersects); touching edges do not
count as intersection. -/
def Placement.intersects (p other : Placement) : Bool :=
  !(decide (p.x + p.width ≤ other.x) || decide (other.x + other.width ≤ p.x) ||
    decide (p.y + p.height ≤ other.y) || decide (other.y + other.height ≤ p.y))

/-- Area of the rectangular overlap region (Placement::intersection_area). -/
def Placement.intersection_area (p other : Placement) : Nat :=
  let x_overlap_start := max p.x other.x
  let x_overlap_end := min (p.x + p.width) (other.x + other.width)
  let y_overlap_start := max p.y other.y
  let y_overlap_end := min (p.y + p.height) (other.y + other.height)
  if x_overlap_start < x_overlap_end ∧ y_overlap_start < y_overlap_end then
    (x_overlap_end - x_overlap_start) * (y_overlap_end - y_overlap_start)
  else 0

/-- Fixed-capacity square bin holding placements in insertion order (struct BoxBin). -/
structure BoxBin where
  capacity : Nat
  placements : List Placement
deriving DecidableEq, Repr

/-- BoxBin::new. -/
def BoxBin.new (capacity : Nat) : BoxBin := ⟨capacity, []⟩

/-- BoxBin::try_place; the mutation of the bin is modelled by returning the updated
bin next to the success flag, and on failure the bin is returned unchanged. -/
def BoxBin.try_place (bin : BoxBin) (rect : Rect) (x y : Nat) (rotated : Bool) :
    Bool × BoxBin :=
  let new_placement : Placement := ⟨rect, x, y, rotated⟩
  if bin.capacity < x + new_placement.width ∨ bin.capacity < y + new_placement.height then
    (false, bin)
  else if bin.placements.any (fun existing => new_placement.intersects existing) then
    (false, bin)
  else
    (true, ⟨bin.capacity, bin.placements ++ [new_placement]⟩)

/-- BoxBin::can_place. -/
def BoxBin.can_place (bin : BoxBin) (rect : Rect) (x y : Nat) (rotated : Bool) : Bool :=
  let w := if rotated then rect.height else rect.width
  let h := if rotated then rect.width else rect.height
  if bin.capacity < x + w ∨ bin.capacity < y + h then false
  else bin.placements.all (fun existing => !(Placement.intersects ⟨rect, x, y, rotated⟩ existing))

/-- Bottom-left candidate order: y ascending, then x ascending; this is the sort_by
comparator shared by find_position_in_box, try_place_cp and
find_position_with_overlap. -/
def cand_le (a b : Nat × Nat) : Prop := a.2 < b.2 ∨ (a.2 = b.2 ∧ a.1 ≤ b.1)

/-- Strict version of the bottom-left order. -/
def cand_lt (a b : Nat × Nat) : Prop := a.2 < b.2 ∨ (a.2 = b.2 ∧ a.1 < b.1)

instance : DecidableRel cand_le := fun a b => by
  unfold cand_le; infer_instance

instance : DecidableRel cand_lt := fun a b => by
  unfold cand_lt; infer_instance

instance : IsTotal (Nat × Nat) cand_le := ⟨by intro a b; unfold cand_le; omega⟩

instance : IsTrans (Nat × Nat) cand_le := ⟨by intro a b c; unfold cand_le; omega⟩

/-- Raw candidate anchors: the origin plus, per existing placement, its bottom-right
and top-left corners filtered to lie strictly inside the bin. The source inserts
these into a HashSet; duplicates are removed by dedup below. -/
def candidate_corners (bin : BoxBin) : List (Nat × Nat) :=
  (0, 0) :: bin.placements.flatMap (fun p =>
    (if p.x + p.width < bin.capacity ∧ p.y < bin.capacity then
      [(p.x + p.width, p.y)] else []) ++
    (if p.x < bin.capacity ∧ p.y + p.height < bin.capacity then
      [(p.x, p.y + p.height)] else []))

/-- Deduplicated candidates sorted bottom-left (y, then x). The comparator is total
and antisymmetric on distinct pairs, so the sorted arrangement of the duplicate-free
candidate set is unique and any correct sort reproduces the source's sort_by. -/
def sorted_candidates (bin : BoxBin) : List (Nat × Nat) :=
  List.insertionSort cand_le (candidate_corners bin).dedup

/-- BoxBin::find_position_in_box: first candidate in bottom-left order admitting the
rectangle, axis-aligned tried before rotated. -/
def BoxBin.find_position_in_box (bin : BoxBin) (rect : Rect) : Option (Nat × Nat × Bool) :=
  (sorted_candidates bin).findSome? (fun c =>
    if bin.can_place rect c.1 c.2 false then some (c.1, c.2, false)
    else if bin.can_place rect c.1 c.2 true then some (c.1, c.2, true)
    else none)

/-- Scanning loop of try_place_cp (src/problem/greedy.rs): try each candidate with
try_place, axis-aligned then rotated; failed attempts leave the bin unchanged. -/
def try_place_cp_go (bin : BoxBin) (rect : Rect) : List (Nat × Nat) → Bool × BoxBin
  | [] => (false, bin)
  | c :: rest =>
    let r1 := bin.try_place rect c.1 c.2 false
    if r1.1 then r1
    else
      let r2 := bin.try_place rect c.1 c.2 true
      if r2.1 then r2
      else try_place_cp_go bin rect rest

/-- try_place_cp (src/problem/greedy.rs): candidate-point placement into one bin. -/
def try_place_cp (bin : BoxBin) (rect : Rect) : Bool × BoxBin :=
  try_place_cp_go bin rect (sorted_candidates bin)

/-- Vec::swap_remove(i): replace position i with the last element and pop the last.
Total function; every call site passes an in-range index. -/
def swap_remove {α : Type} (l : List α) (i : Nat) : List α :=
  match l.getLast? with
  | none => l
  | some a => (l.set i a).dropLast

/-- Problem instance (src/problem/instance.rs). -/
structure Instance where
  box_size : Nat
  rects : List Rect
deriving DecidableEq, Repr

/-- Packing solution (struct RectangleSolution). The field holding the instance is
named inst because the source's field name is a Lean keyword. -/
structure RectangleSolution where
  inst : Instance
  boxes : List BoxBin
  penalty_factor : Option Int
deriving DecidableEq, Repr

/-- RectangleSolution::new. -/
def RectangleSolution.new (inst : Instance) : RectangleSolution := ⟨inst, [], none⟩

/-- RectangleSolution::with_penalty. -/
def RectangleSolution.with_penalty (s : RectangleSolution) (factor : Int) :
    RectangleSolution :=
  { s with penalty_factor := some factor }

/-- Used area of a bin: sum of the areas of the placed rectangles (the inline
`placements.iter().map(|p| p.rect.area()).sum()` of the cost function). -/
def BoxBin.used_area (b : BoxBin) : Nat := (b.placements.map (fun p => p.rect.area)).sum

/-- The i < j pairwise loop of the penalty cost: each placement against all later
placements, kept behind the source's `intersect > 0` guard. -/
def pair_overlap : List Placement → Int
  | [] => 0
  | p :: rest =>
    (rest.map (fun q =>
      let intersect := p.intersection_area q
      if 0 < intersect then (intersect : Int) else 0)).sum + pair_overlap rest

/-- RectangleSolution::cost: lexicographic (bins, negated density) without a penalty
factor; a single penalised scalar with one. -/
def RectangleSolution.cost (s : RectangleSolution) : Nat × Int :=
  let num_boxes := s.boxes.length
  match s.penalty_factor with
  | some penalty_factor =>
    let total_penalty : Int := (s.boxes.map (fun bin => pair_overlap bin.placements)).sum
    let density_score : Int := -((s.boxes.map (fun bin => ((bin.used_area : Int)) ^ 2)).sum)
    let box_weight : Int := ((s.inst.box_size : Int)) ^ 4 + 1
    (0, total_penalty * penalty_factor + density_score + (num_boxes : Int) * box_weight)
  | none =>
    (num_boxes, -((s.boxes.map (fun bin => ((bin.used_area : Int)) ^ 2)).sum))

/-- Strict lexicographic order on (usize, i64) cost pairs, as Rust derives Ord for
tuples. -/
def lexLt (a b : Nat × Int) : Bool :=
  decide (a.1 < b.1) || (decide (a.1 = b.1) && decide (a.2 < b.2))

/-- Greedy search state (src/problem/greedy.rs). -/
structure RectangleGreedyState where
  solution : RectangleSolution
  remaining_rects : List Rect
deriving DecidableEq, Repr

/-- RectangleGreedyState::new. -/
def RectangleGreedyState.new (inst : Instance) : RectangleGreedyState :=
  ⟨RectangleSolution.new inst, inst.rects⟩

/-- RectangleGreedyState::is_finished. -/
def RectangleGreedyState.is_finished (st : RectangleGreedyState) : Bool :=
  st.remaining_rects.isEmpty

/-- The bin loop of RectangleGreedyState::apply: the first existing bin accepting the
rectangle via try_place_cp is updated in place. -/
def place_in_boxes (rect : Rect) : List BoxBin → Option (List BoxBin)
  | [] => none
  | b :: rest =>
    let r := try_place_cp b rect
    if r.1 then some (r.2 :: rest)
    else (place_in_boxes rect rest).map (fun l => b :: l)

/-- RectangleGreedyState::apply; the panic taken when a freshly opened bin rejects
the rectangle is modelled as none. -/
def RectangleGreedyState.apply (st : RectangleGreedyState) (rect : Rect) :
    Option RectangleGreedyState :=
  let remaining :=
    match st.remaining_rects.findIdx? (fun r => r.id == rect.id) with
    | some pos => st.remaining_rects.eraseIdx pos
    | none => st.remaining_rects
  match place_in_boxes rect st.solution.boxes with
  | some boxes2 => some ⟨{ st.solution with boxes := boxes2 }, remaining⟩
  | none =>
    let res := (BoxBin.new st.solution.inst.box_size).try_place rect 0 0 false
    if res.1 then
      some ⟨{ st.solution with boxes := st.solution.boxes ++ [res.2] }, remaining⟩
    else none

/-- Iterator::max_by_key: a fold in which a later element replaces the current best
exactly when its key is greater or equal, so on ties the last maximum wins. -/
def max_by_key {α : Type} (key : α → Nat) (l : List α) : Option α :=
  l.foldl (fun acc x =>
    match acc with
    | none => some x
    | some m => if key m ≤ key x then some x else some m) none

/-- SortByAreaStrategy::next_candidate. -/
def SortByAreaStrategy.next_candidate (st : RectangleGreedyState) : Option Rect :=
  max_by_key Rect.area st.remaining_rects

/-- SortByMaxSideStrategy::next_candidate. -/
def SortByMaxSideStrategy.next_candidate (st : RectangleGreedyState) : Option Rect :=
  max_by_key (fun r => max r.width r.height) st.remaining_rects

/-- One round of the local-search loop (src/algorithms/local_search.rs): the first
neighbor whose cost is strictly below the current cost. The outer Option is none
when the neighborhood itself fails its precondition (a panic in the source). -/
def ls_step {S C : Type} (cost : S → C) (lt : C → C → Bool) (nb : S → Option (List S))
    (cur : S) : Option (Option S) :=
  (nb cur).map (fun l => l.find? (fun n => lt (cost n) (cost cur)))

namespace LocalSearch

/-- algorithms::local_search::solve with explicit fuel: the result is some r exactly
when the first-improvement loop reaches the local optimum r within the given number
of rounds without the neighborhood failing. -/
def solve {S C : Type} (cost : S → C) (lt : C → C → Bool) (nb : S → Option (List S)) :
    Nat → S → Option S
  | 0, _ => none
  | fuel + 1, cur =>
    match ls_step cost lt nb cur with
    | none => none
    | some none => some cur
    | some (some next) => solve cost lt nb fuel next

end LocalSearch

/-- Default bin used with getD at indices that are always in range. -/
def dummy_bin : BoxBin := ⟨0, []⟩

/-- Default placement used with getD at indices that are always in range. -/
def dummy_placement : Placement := ⟨⟨0, 0, 0⟩, 0, 0, false⟩

/-- Move one placement between two bins: swap_remove it from the source bin, push the
new placement onto the target bin, and swap_remove the source bin if it became empty.
Shared shape of GeometricNeighborhood::neighbors and
OverlappingNeighborhood::neighbors, whose move construction is identical. -/
def relocate (sol : RectangleSolution) (src p tgt : Nat) (rect : Rect) (x y : Nat)
    (rot : Bool) : RectangleSolution :=
  let src_box := sol.boxes.getD src dummy_bin
  let tgt_box := sol.boxes.getD tgt dummy_bin
  let boxes1 := sol.boxes.set src
    { src_box with placements := swap_remove src_box.placements p }
  let boxes2 := boxes1.set tgt
    { tgt_box with placements := tgt_box.placements ++ [⟨rect, x, y, rot⟩] }
  let boxes3 :=
    if ((boxes2.getD src dummy_bin).placements).isEmpty then swap_remove boxes2 src
    else boxes2
  { sol with boxes := boxes3 }

/-- GeometricNeighborhood::neighbors: for every placement and every other bin in
which find_position_in_box succeeds, the solution with that one rectangle moved. -/
def geometric_neighbors (sol : RectangleSolution) : List RectangleSolution :=
  (List.range sol.boxes.length).flatMap (fun src =>
    (List.range ((sol.boxes.getD src dummy_bin).placements).length).flatMap (fun p =>
      let rect := ((sol.boxes.getD src dummy_bin).placements.getD p dummy_placement).rect
      (List.range sol.boxes.length).filterMap (fun tgt =>
        if src = tgt then none
        else
          ((sol.boxes.getD tgt dummy_bin).find_position_in_box rect).map (fun c =>
            relocate sol src p tgt rect c.1 c.2.1 c.2.2))))

/-- The geometric neighborhood never fails, so its iterator always exists. -/
def GeometricNeighborhood.neighbors (sol : RectangleSolution) :
    Option (List RectangleSolution) :=
  some (geometric_neighbors sol)

/-- check_overlap_limit: bin bounds plus, for every overlapped existing placement,
intersection area over the larger rectangle area must not exceed the limit. The
source's f64 ratio test `intersection / max_area > limit` is modelled exactly over
the rationals, in cross-multiplied integer form: intersection * limit.den ≤
limit.num * max_area says intersection / max_area ≤ limit (max_area is positive
whenever the `intersection > 0` guard holds, since the overlap region is contained
in both rectangles); overlap_ratio_le_iff below proves this equivalence. -/
def check_overlap_limit (bin : BoxBin) (rect : Rect) (x y : Nat) (rotated : Bool)
    (limit : ℚ) : Bool :=
  let w := if rotated then rect.height else rect.width
  let h := if rotated then rect.width else rect.height
  if bin.capacity < x + w ∨ bin.capacity < y + h then false
  else
    bin.placements.all (fun existing =>
      let intersection := Placement.intersection_area ⟨rect, x, y, rotated⟩ existing
      if 0 < intersection then
        let max_area := max rect.area existing.rect.area
        decide ((intersection : Int) * (limit.den : Int) ≤ limit.num * (max_area : Int))
      else true)

/-- find_position_with_overlap: same candidate scan as find_position_in_box, with
check_overlap_limit as the admission test. -/
def find_position_with_overlap (bin : BoxBin) (rect : Rect) (limit : ℚ) :
    Option (Nat × Nat × Bool) :=
  (sorted_candidates bin).findSome? (fun c =>
    if check_overlap_limit bin rect c.1 c.2 false limit then some (c.1, c.2, false)
    else if check_overlap_limit bin rect c.1 c.2 true limit then some (c.1, c.2, true)
    else none)

/-- The fallback move of OverlappingNeighborhood: remove the placement (dropping its
bin if emptied) and push a brand-new bin holding the rectangle at the origin. The
source ignores the try_place result, so an oversized rectangle would leave the new
bin empty; it is emitted unconditionally by the once_with closure. -/
def new_box_move (sol : RectangleSolution) (src p : Nat) : RectangleSolution :=
  let src_box := sol.boxes.getD src dummy_bin
  let rect := (src_box.placements.getD p dummy_placement).rect
  let boxes1 := sol.boxes.set src
    { src_box with placements := swap_remove src_box.placements p }
  let boxes2 :=
    if ((boxes1.getD src dummy_bin).placements).isEmpty then swap_remove boxes1 src
    else boxes1
  let new_bin := ((BoxBin.new sol.inst.box_size).try_place rect 0 0 false).2
  { sol with boxes := boxes2 ++ [new_bin] }

/-- Existing-bin relocation moves of one placement of OverlappingNeighborhood. -/
def overlap_relocations (sol : RectangleSolution) (limit : ℚ) (src p : Nat) :
    List RectangleSolution :=
  let rect := ((sol.boxes.getD src dummy_bin).placements.getD p dummy_placement).rect
  (List.range sol.boxes.length).filterMap (fun tgt =>
    if src = tgt then none
    else
      (find_position_with_overlap (sol.boxes.getD tgt dummy_bin) rect limit).map (fun c =>
        relocate sol src p tgt rect c.1 c.2.1 c.2.2))

/-- Move enumeration of OverlappingNeighborhood::neighbors: per placement, every
admitting existing bin first, then the chained new-bin move. -/
def overlap_moves (sol : RectangleSolution) (limit : ℚ) : List RectangleSolution :=
  (List.range sol.boxes.length).flatMap (fun src =>
    (List.range ((sol.boxes.getD src dummy_bin).placements).length).flatMap (fun p =>
      overlap_relocations sol limit src p ++ [new_box_move sol src p]))

/-- OverlappingNeighborhood::neighbors: panics (none) without a penalty factor. -/
def OverlappingNeighborhood.neighbors (limit : ℚ) (sol : RectangleSolution) :
    Option (List RectangleSolution) :=
  match sol.penalty_factor with
  | some _ => some (overlap_moves sol limit)
  | none => none

/-- testing::create_trivial_solution: one bin per rectangle, each placed at the
origin; the try_place result is ignored, as in the source. -/
def create_trivial_solution (inst : Instance) : RectangleSolution :=
  { inst := inst
    boxes := inst.rects.map (fun r => ((BoxBin.new inst.box_size).try_place r 0 0 false).2)
    penalty_factor := none }

/-- The phase loop of run_overlapping_ls: run local search at the current tolerance,
tighten the tolerance by 0.1 (clamped at 0), multiply the penalty factor by 5. -/
def run_overlapping_phases (fuel : Nat) :
    Nat → ℚ → RectangleSolution → Option RectangleSolution
  | 0, _, sol => some sol
  | steps + 1, percent, sol =>
    match LocalSearch.solve RectangleSolution.cost lexLt
        (OverlappingNeighborhood.neighbors percent) fuel sol with
    | none => none
    | some sol2 =>
      let percent2 := percent - 1 / 10
      let percent3 := if percent2 < 0 then 0 else percent2
      let sol3 :=
        match sol2.penalty_factor with
        | some p => { sol2 with penalty_factor := some (p * 5) }
        | none => sol2
      run_overlapping_phases fuel steps percent3 sol3

/-- testing::run_overlapping_ls: 10 annealing phases starting at penalty 10 and full
overlap tolerance; afterwards the penalty factor is cleared and one final geometric
local search runs. -/
def run_overlapping_ls (fuel : Nat) (start_sol : RectangleSolution) :
    Option RectangleSolution :=
  match run_overlapping_phases fuel 10 1 (start_sol.with_penalty 10) with
  | none => none
  | some current_sol =>
    LocalSearch.solve RectangleSolution.cost lexLt GeometricNeighborhood.neighbors fuel
      { current_sol with penalty_factor := none }

/-- A solution is overlap-free when every pair of placements in every bin has zero
intersection area. -/
def no_overlap (s : RectangleSolution) : Prop :=
  ∀ b ∈ s.boxes, b.placements.Pairwise (fun p q => p.intersection_area q = 0)

instance (s : RectangleSolution) : Decidable (no_overlap s) := by
  unfold no_overlap; infer_instance

/-- Candidate-anchor predicate, written from the spec's words: the origin, or a
corner point of an existing placement with both coordinates strictly inside the bin. -/
def is_candidate (bin : BoxBin) (c : Nat × Nat) : Prop :=
  c = (0, 0) ∨ ∃ p ∈ bin.placements,
    ((c = (p.x + p.width, p.y) ∨ c = (p.x, p.y + p.height)) ∧
      c.1 < bin.capacity ∧ c.2 < bin.capacity)

/-- Density term as the spec words it: sum over bins of squared used area. -/
def spec_density (s : RectangleSolution) : Int :=
  ∑ i ∈ Finset.range s.boxes.length, ((s.boxes.getD i dummy_bin).used_area : Int) ^ 2

/-- Pairwise intersection area of one bin as the spec words it: indexed sum over all
pairs i < j. -/
def spec_bin_overlap (l : List Placement) : Int :=
  ∑ i ∈ Finset.range l.length, ∑ j ∈ Finset.Ico (i + 1) l.length,
    ((l.getD i dummy_placement).intersection_area (l.getD j dummy_placement) : Int)

/-- Total pairwise overlap over all bins, as the spec words it. -/
def spec_total_overlap (s : RectangleSolution) : Int :=
  ∑ i ∈ Finset.range s.boxes.length, spec_bin_overlap (s.boxes.getD i dummy_bin).placements

/-- Cost model as the spec words it (the refinement target of claim C7). -/
def spec_cost (s : RectangleSolution) : Nat × Int :=
  match s.penalty_factor with
  | none => (s.boxes.length, -spec_density s)
  | some p =>
    (0, spec_total_overlap s * p + (-spec_density s) +
      (s.boxes.length : Int) * (((s.inst.box_size : Int)) ^ 4 + 1))

/-- All rectangles of a solution, bin by bin and placement by placement. -/
def all_rects (s : RectangleSolution) : List Rect :=
  s.boxes.flatMap (fun b => b.placements.map (fun q => q.rect))

/-- The two-rectangle instance on which the annealing driver ends with residual
overlap: both rectangles fill the whole bin, so phase 0 (tolerance 1.0) merges them
into one bin, and no later phase or the final geometric pass can split a single bin
(the geometric neighborhood needs a second bin as target). -/
def c1_instance : Instance := ⟨3000, [⟨0, 3000, 3000⟩, ⟨1, 3000, 3000⟩]⟩

/-- The single merged bin of the c1 run. -/
def c1_bins : List BoxBin :=
  [⟨3000, [⟨⟨1, 3000, 3000⟩, 0, 0, false⟩, ⟨⟨0, 3000, 3000⟩, 0, 0, false⟩]⟩]

/-- The two singleton bins of a re-opened split of the c1 run. -/
def c1_split_bins : List BoxBin :=
  [⟨3000, [⟨⟨0, 3000, 3000⟩, 0, 0, false⟩]⟩, ⟨3000, [⟨⟨1, 3000, 3000⟩, 0, 0, false⟩]⟩]

/-- The other split order (removing the second placement first). -/
def c1_split_bins2 : List BoxBin :=
  [⟨3000, [⟨⟨1, 3000, 3000⟩, 0, 0, false⟩]⟩, ⟨3000, [⟨⟨0, 3000, 3000⟩, 0, 0, false⟩]⟩]

/-- The one-bin state phase 0 reaches, carrying the current penalty factor. -/
def c1_merged (pen : Int) : RectangleSolution :=
  ⟨c1_instance, c1_bins, some pen⟩

/-- The trivial start solution for c1_instance, penalty 10 installed. -/
def c1_start : RectangleSolution :=
  (create_trivial_solution c1_instance).with_penalty 10

/-- The solution run_overlapping_ls returns on c1_instance: one bin with the two
rectangles fully overlapping at the origin. -/
def c1_result : RectangleSolution :=
  ⟨c1_instance,
    [⟨3000, [⟨⟨1, 3000, 3000⟩, 0, 0, false⟩, ⟨⟨0, 3000, 3000⟩, 0, 0, false⟩]⟩], none⟩

/-- A one-rectangle instance: the phases leave the single bin untouched. -/
def c1w_instance : Instance := ⟨10, [⟨0, 5, 5⟩]⟩

/-- The single-bin state of c1w_instance, carrying the current penalty factor. -/
def c1w_mid0 (pen : Int) : RectangleSolution :=
  ⟨c1w_instance, [⟨10, [⟨⟨0, 5, 5⟩, 0, 0, false⟩]⟩], some pen⟩

/-- The driver's result on c1w_instance. -/
def c1w_result : RectangleSolution :=
  ⟨c1w_instance, [⟨10, [⟨⟨0, 5, 5⟩, 0, 0, false⟩]⟩], none⟩

/-- The bin of the spec's rotation scenario: a 4 by 6 rectangle at the origin of a
capacity-10 bin. -/
def c3_bin : BoxBin := ⟨10, [⟨⟨0, 4, 6⟩, 0, 0, false⟩]⟩

/-- A greedy state with two equal-key rectangles, areas 6 and 6, longest sides 3
and 3: the maximum is attained first at the head. -/
def c5_state : RectangleGreedyState :=
  ⟨RectangleSolution.new ⟨10, [⟨0, 2, 3⟩, ⟨1, 3, 2⟩]⟩, [⟨0, 2, 3⟩, ⟨1, 3, 2⟩]⟩

/-- Two one-by-one rectangles in separate bins, with a penalty factor set. -/
def c6c_sol : RectangleSolution :=
  ⟨⟨10, [⟨0, 1, 1⟩, ⟨1, 1, 1⟩]⟩,
    [⟨10, [⟨⟨0, 1, 1⟩, 0, 0, false⟩]⟩, ⟨10, [⟨⟨1, 1, 1⟩, 0, 0, false⟩]⟩], some 1⟩

/-- Two one-by-one rectangles in separate bins, no penalty factor. -/
def c8_sol : RectangleSolution :=
  ⟨⟨10, [⟨0, 1, 1⟩, ⟨1, 1, 1⟩]⟩,
    [⟨10, [⟨⟨0, 1, 1⟩, 0, 0, false⟩]⟩, ⟨10, [⟨⟨1, 1, 1⟩, 0, 0, false⟩]⟩], none⟩

/-- The local optimum the geometric search reaches from c8_sol: one consolidated
bin. -/
def c8_result : RectangleSolution :=
  ⟨⟨10, [⟨0, 1, 1⟩, ⟨1, 1, 1⟩]⟩,
    [⟨10, [⟨⟨1, 1, 1⟩, 0, 0, false⟩, ⟨⟨0, 1, 1⟩, 1, 0, false⟩]⟩], none⟩

/-- A greedy state holding one fitting rectangle and no bins yet. -/
def c9_state : RectangleGreedyState :=
  ⟨RectangleSolution.new ⟨10, [⟨0, 4, 6⟩]⟩, [⟨0, 4, 6⟩]⟩

/-- Two one-by-one rectangles in separate bins, for the C10 witness. -/
def c10_sol : RectangleSolution :=
  ⟨⟨10, [⟨0, 1, 1⟩, ⟨1, 1, 1⟩]⟩,
    [⟨10, [⟨⟨0, 1, 1⟩, 0, 0, false⟩]⟩, ⟨10, [⟨⟨1, 1, 1⟩, 0, 0, false⟩]⟩], none⟩

/-- The first geometric neighbor of c10_sol: rectangle 0 moved into the other bin. -/
def c10_neighbor : RectangleSolution :=
  ⟨⟨10, [⟨0, 1, 1⟩, ⟨1, 1, 1⟩]⟩,
    [⟨10, [⟨⟨1, 1, 1⟩, 0, 0, false⟩, ⟨⟨0, 1, 1⟩, 1, 0, false⟩]⟩], none⟩

section Helpers

/-- The cross-multiplied integer test of check_overlap_limit is exactly the
rational inequality intersection / max_area ≤ limit of the source. -/
theorem overlap_ratio_le_iff (i m : Nat) (L : ℚ) (hm : 0 < m) :
    ((i : Int) * (L.den : Int) ≤ L.num * (m : Int)) ↔ ((i : ℚ) / (m : ℚ) ≤ L) := by
  have hm2 : (0 : ℚ) < (m : ℚ) := by exact_mod_cast hm
  have hden : (0 : ℚ) < ((L.den : Int) : ℚ) := by exact_mod_cast L.den_pos
  rw [div_le_iff₀ hm2]
  have hnum : ((L.num : Int) : ℚ) = L * ((L.den : Int) : ℚ) := by
    push_cast
    rw [Rat.mul_den_eq_num]
  constructor
  · intro h
    have h2 : ((i : ℚ)) * ((L.den : Int) : ℚ) ≤ ((L.num : Int) : ℚ) * (m : ℚ) := by
      exact_mod_cast h
    rw [hnum] at h2
    have h3 : (i : ℚ) * ((L.den : Int) : ℚ) ≤ (L * (m : ℚ)) * ((L.den : Int) : ℚ) := by
      ring_nf
      ring_nf at h2
      linarith
    exact le_of_mul_le_mul_right h3 hden
  · intro h
    have h2 : (i : ℚ) * ((L.den : Int) : ℚ) ≤ (L * (m : ℚ)) * ((L.den : Int) : ℚ) :=
      mul_le_mul_of_nonneg_right h (le_of_lt hden)
    have h3 : ((i : ℚ)) * ((L.den : Int) : ℚ) ≤ ((L.num : Int) : ℚ) * (m : ℚ) := by
      rw [hnum]
      ring_nf
      ring_nf at h2
      linarith
    exact_mod_cast h3

/-- findSome? yields none exactly when every element maps to none. -/
theorem findSome?_none {α β : Type} (f : α → Option β) :
    ∀ l : List α, l.findSome? f = none ↔ ∀ a ∈ l, f a = none := by
  intro l
  induction l with
  | nil => simp
  | cons a t ih =>
    cases hf : f a with
    | none => simp [List.findSome?_cons, hf, ih]
    | some b => simp [List.findSome?_cons, hf]

/-- A findSome? success splits the list at the first hit. -/
theorem findSome?_split {α β : Type} (f : α → Option β) :
    ∀ l : List α, ∀ r, l.findSome? f = some r →
      ∃ l1 a l2, l = l1 ++ a :: l2 ∧ f a = some r ∧ ∀ b ∈ l1, f b = none := by
  intro l
  induction l with
  | nil => intro r h; simp at h
  | cons a t ih =>
    intro r h
    cases hf : f a with
    | some b =>
      simp only [List.findSome?_cons, hf] at h
      exact ⟨[], a, t, by simp, by rw [hf]; exact h, by simp⟩
    | none =>
      simp only [List.findSome?_cons, hf] at h
      obtain ⟨l1, x, l2, he, hx, hnone⟩ := ih r h
      refine ⟨a :: l1, x, l2, by simp [he], hx, ?_⟩
      intro b hb
      rcases List.mem_cons.mp hb with hb | hb
      · rw [hb]; exact hf
      · exact hnone b hb

/-- A find? success is the first element satisfying the predicate. -/
theorem find?_first {α : Type} (q : α → Bool) :
    ∀ l : List α, ∀ a, l.find? q = some a →
      ∃ i, ∃ h : i < l.length, l.get ⟨i, h⟩ = a ∧ q a = true ∧
        ∀ j, ∀ hj : j < l.length, j < i → q (l.get ⟨j, hj⟩) = false := by
  intro l
  induction l with
  | nil => intro a h; simp at h
  | cons x t ih =>
    intro a h
    by_cases hq : q x = true
    · rw [List.find?_cons_of_pos _ hq] at h
      obtain rfl : x = a := Option.some_injective _ h
      refine ⟨0, by simp, by simp, hq, ?_⟩
      intro j hj hlt; omega
    · rw [List.find?_cons_of_neg _ (by simpa using hq)] at h
      obtain ⟨i, hi, he, hqa, hbefore⟩ := ih a h
      refine ⟨i + 1, by simpa using Nat.succ_lt_succ hi, by simpa using he, hqa, ?_⟩
      intro j hj hlt
      cases j with
      | zero => simpa using hq
      | succ j =>
        have hj2 : j < t.length := by simpa using hj
        have := hbefore j hj2 (by omega)
        simpa using this

/-- intersection_area is symmetric. -/
theorem intersection_area_comm (p q : Placement) :
    p.intersection_area q = q.intersection_area p := by
  unfold Placement.intersection_area
  rw [Nat.max_comm p.x, Nat.min_comm (p.x + p.width), Nat.max_comm p.y,
    Nat.min_comm (p.y + p.height)]

/-- Non-intersecting placements have zero intersection area. -/
theorem intersection_area_zero_of_not_intersects (p q : Placement)
    (h : p.intersects q = false) : p.intersection_area q = 0 := by
  simp only [Placement.intersects, Bool.not_eq_false', Bool.or_eq_true,
    decide_eq_true_eq] at h
  simp only [Placement.intersection_area]
  split
  · next hc => exfalso; omega
  · rfl

/-- Setting an in-range index is, as a multiset, replacement of the element there. -/
theorem set_perm_cons_eraseIdx {α : Type} :
    ∀ (l : List α) (i : Nat) (x : α), i < l.length →
      (l.set i x).Perm (x :: l.eraseIdx i) := by
  intro l
  induction l with
  | nil => intro i x h; simp at h
  | cons a t ih =>
    intro i x h
    cases i with
    | zero => simp
    | succ i =>
      have ht : i < t.length := by simpa using Nat.lt_of_succ_lt_succ h
      have e1 : (a :: t).set (i + 1) x = a :: t.set i x := by simp
      have e2 : (a :: t).eraseIdx (i + 1) = a :: t.eraseIdx i := by simp
      rw [e1, e2]
      exact ((ih i x ht).cons a).trans (List.Perm.swap x a _)

/-- Extracting an in-range element as head of the remainder. -/
theorem perm_extract {α : Type} (d : α) :
    ∀ (l : List α) (i : Nat), ∀ _ : i < l.length,
      l.Perm (l.getD i d :: l.eraseIdx i) := by
  intro l
  induction l with
  | nil => intro i h; simp at h
  | cons a t ih =>
    intro i h
    cases i with
    | zero => simp
    | succ i =>
      have ht : i < t.length := by simpa using Nat.lt_of_succ_lt_succ h
      have e2 : (a :: t).eraseIdx (i + 1) = a :: t.eraseIdx i := by simp
      have e3 : (a :: t).getD (i + 1) d = t.getD i d := by simp
      rw [e2, e3]
      exact ((ih i ht).cons a).trans (List.Perm.swap _ a _)

/-- swap_remove at an in-range index is, as a multiset, plain removal. -/
theorem swap_remove_perm {α : Type} (l : List α) (i : Nat) (h : i < l.length) :
    (swap_remove l i).Perm (l.eraseIdx i) := by
  induction l using List.reverseRecOn with
  | nil => simp at h
  | append_singleton t a _ =>
    unfold swap_remove
    simp only [List.getLast?_concat]
    rw [List.length_append, List.length_singleton] at h
    by_cases hi : i < t.length
    · rw [List.set_append, if_pos hi, List.dropLast_concat,
        List.eraseIdx_append_of_lt_length hi]
      exact (set_perm_cons_eraseIdx t i a hi).trans
        (List.perm_append_singleton a (t.eraseIdx i)).symm
    · have hi2 : i = t.length := by omega
      subst hi2
      rw [List.set_append, if_neg (by omega), Nat.sub_self]
      have e1 : List.set [a] 0 a = [a] := by simp
      rw [e1, List.dropLast_concat]
      have e2 : (t ++ [a]).eraseIdx t.length = t ++ [a].eraseIdx 0 := by
        rw [List.eraseIdx_append_of_length_le (Nat.le_refl t.length)]
        simp
      rw [e2]
      simp

/-- swap_remove at an in-range index shortens the list by one. -/
theorem swap_remove_length {α : Type} (l : List α) (i : Nat) (h : i < l.length) :
    (swap_remove l i).length = l.length - 1 := by
  rw [(swap_remove_perm l i h).length_eq, List.length_eraseIdx, if_pos h]

/-- Membership in sorted_candidates is exactly the spec's candidate predicate. -/
theorem mem_sorted_candidates (bin : BoxBin) (c : Nat × Nat) :
    c ∈ sorted_candidates bin ↔ is_candidate bin c := by
  unfold sorted_candidates is_candidate
  rw [(List.perm_insertionSort cand_le (candidate_corners bin).dedup).mem_iff,
    List.mem_dedup]
  unfold candidate_corners
  simp only [List.mem_cons, List.mem_flatMap, List.mem_append]
  constructor
  · rintro (h | ⟨p, hp, hc⟩)
    · exact Or.inl h
    · refine Or.inr ⟨p, hp, ?_⟩
      rcases hc with hc | hc <;> split at hc <;> simp_all
  · rintro (h | ⟨p, hp, hc, h1, h2⟩)
    · exact Or.inl h
    · refine Or.inr ⟨p, hp, ?_⟩
      rcases hc with hc | hc
      · subst hc; left; rw [if_pos ⟨h1, h2⟩]; simp
      · subst hc; right; rw [if_pos ⟨h1, h2⟩]; simp

/-- The sorted candidate list is sorted by the bottom-left order. -/
theorem sorted_candidates_sorted (bin : BoxBin) :
    List.Sorted cand_le (sorted_candidates bin) :=
  List.sorted_insertionSort cand_le _

/-- can_place holds exactly when the effective extent fits and the candidate
placement intersects no existing placement. -/
theorem can_place_iff (bin : BoxBin) (rect : Rect) (x y : Nat) (rot : Bool) :
    bin.can_place rect x y rot = true ↔
      (x + Placement.width ⟨rect, x, y, rot⟩ ≤ bin.capacity ∧
       y + Placement.height ⟨rect, x, y, rot⟩ ≤ bin.capacity ∧
       ∀ e ∈ bin.placements, Placement.intersects ⟨rect, x, y, rot⟩ e = false) := by
  have hw : (if rot then rect.height else rect.width) = Placement.width ⟨rect, x, y, rot⟩ := rfl
  have hh : (if rot then rect.width else rect.height) = Placement.height ⟨rect, x, y, rot⟩ := rfl
  simp only [BoxBin.can_place]
  rw [hw, hh]
  split
  · next hc =>
    simp only [Bool.false_eq_true, false_iff]
    intro hcon
    omega
  · next hc =>
    rw [List.all_eq_true]
    constructor
    · intro hall
      refine ⟨by omega, by omega, ?_⟩
      intro e he
      simpa using hall e he
    · intro hcon e he
      simpa using hcon.2.2 e he

/-- try_place is can_place plus the append of the new placement. -/
theorem try_place_eq (bin : BoxBin) (rect : Rect) (x y : Nat) (rot : Bool) :
    bin.try_place rect x y rot =
      if bin.can_place rect x y rot = true then
        (true, ⟨bin.capacity, bin.placements ++ [⟨rect, x, y, rot⟩]⟩)
      else (false, bin) := by
  have hw : (if rot then rect.height else rect.width) = Placement.width ⟨rect, x, y, rot⟩ := rfl
  have hh : (if rot then rect.width else rect.height) = Placement.height ⟨rect, x, y, rot⟩ := rfl
  simp only [BoxBin.try_place, BoxBin.can_place, hw, hh]
  by_cases hb : bin.capacity < x + Placement.width ⟨rect, x, y, rot⟩ ∨
      bin.capacity < y + Placement.height ⟨rect, x, y, rot⟩
  · rw [if_pos hb, if_pos hb]
    simp
  · rw [if_neg hb, if_neg hb]
    by_cases hany : bin.placements.any
        (fun e => Placement.intersects ⟨rect, x, y, rot⟩ e) = true
    · rw [if_pos hany]
      have hall : bin.placements.all
          (fun e => !Placement.intersects ⟨rect, x, y, rot⟩ e) = false := by
        obtain ⟨e, he, hx⟩ := List.any_eq_true.mp hany
        rw [Bool.eq_false_iff]
        intro hcon
        have := List.all_eq_true.mp hcon e he
        simp [hx] at this
      rw [hall]
      simp
    · rw [if_neg hany]
      have hall : bin.placements.all
          (fun e => !Placement.intersects ⟨rect, x, y, rot⟩ e) = true := by
        rw [List.all_eq_true]
        intro e he
        have hx : ¬Placement.intersects ⟨rect, x, y, rot⟩ e = true :=
          fun hx => hany (List.any_eq_true.mpr ⟨e, he, hx⟩)
        simpa using hx
      rw [hall]
      simp

/-- The scan of try_place_cp agrees with find_position_in_box followed by the push. -/
theorem try_place_cp_go_eq (bin : BoxBin) (rect : Rect) : ∀ cl : List (Nat × Nat),
    try_place_cp_go bin rect cl =
      match cl.findSome? (fun c =>
        if bin.can_place rect c.1 c.2 false then some (c.1, c.2, false)
        else if bin.can_place rect c.1 c.2 true then some (c.1, c.2, true)
        else none) with
      | some r => (true, ⟨bin.capacity, bin.placements ++ [⟨rect, r.1, r.2.1, r.2.2⟩]⟩)
      | none => (false, bin) := by
  intro cl
  induction cl with
  | nil => simp [try_place_cp_go]
  | cons c rest ih =>
    rw [try_place_cp_go]
    rw [try_place_eq bin rect c.1 c.2 false, try_place_eq bin rect c.1 c.2 true]
    by_cases h1 : bin.can_place rect c.1 c.2 false = true
    · simp [h1, List.findSome?_cons]
    · by_cases h2 : bin.can_place rect c.1 c.2 true = true
      · simp [h1, h2, List.findSome?_cons]
      · simp only [h1, h2, List.findSome?_cons, if_false, Bool.false_eq_true]
        simpa [h1, h2] using ih

/-- try_place_cp succeeds exactly when find_position_in_box does, appending the
found placement. -/
theorem try_place_cp_eq (bin : BoxBin) (rect : Rect) :
    try_place_cp bin rect =
      match bin.find_position_in_box rect with
      | some r => (true, ⟨bin.capacity, bin.placements ++ [⟨rect, r.1, r.2.1, r.2.2⟩]⟩)
      | none => (false, bin) := by
  unfold try_place_cp BoxBin.find_position_in_box
  exact try_place_cp_go_eq bin rect (sorted_candidates bin)

/-- The per-candidate test of find_position_in_box fails exactly when neither
orientation can be placed there. -/
theorem position_try_none_iff (bin : BoxBin) (rect : Rect) (c : Nat × Nat) :
    (if bin.can_place rect c.1 c.2 false then some (c.1, c.2, false)
     else if bin.can_place rect c.1 c.2 true then some (c.1, c.2, true)
     else none : Option (Nat × Nat × Bool)) = none ↔
      bin.can_place rect c.1 c.2 false = false ∧ bin.can_place rect c.1 c.2 true = false := by
  by_cases h1 : bin.can_place rect c.1 c.2 false = true <;>
    by_cases h2 : bin.can_place rect c.1 c.2 true = true <;>
    simp [h1, h2]

/-- Successful find_position_in_box: the anchor is a candidate, the placement is
admissible, rotation is used only when axis-aligned fails at that anchor, and every
bottom-left-earlier candidate admits neither orientation. -/
theorem find_position_some (bin : BoxBin) (rect : Rect) (x y : Nat) (rot : Bool)
    (h : bin.find_position_in_box rect = some (x, y, rot)) :
    is_candidate bin (x, y) ∧ bin.can_place rect x y rot = true ∧
      (rot = true → bin.can_place rect x y false = false) ∧
      ∀ c, is_candidate bin c → cand_lt c (x, y) →
        bin.can_place rect c.1 c.2 false = false ∧ bin.can_place rect c.1 c.2 true = false := by
  unfold BoxBin.find_position_in_box at h
  obtain ⟨l1, a, l2, hsplit, ha, hnone⟩ := findSome?_split _ _ _ h
  obtain ⟨ax, ay⟩ := a
  have hsorted := sorted_candidates_sorted bin
  rw [hsplit] at hsorted
  have hmem_a : (ax, ay) ∈ sorted_candidates bin := by rw [hsplit]; simp
  have hrel2 : ∀ b ∈ l2, cand_le (ax, ay) b :=
    List.rel_of_sorted_cons (List.pairwise_append.mp hsorted).2.1
  have hprefix : ∀ b ∈ l1, bin.can_place rect b.1 b.2 false = false ∧
      bin.can_place rect b.1 b.2 true = false := by
    intro b hb
    exact (position_try_none_iff bin rect b).mp (hnone b hb)
  have hmain : ax = x ∧ ay = y ∧ bin.can_place rect x y rot = true ∧
      (rot = true → bin.can_place rect x y false = false) := by
    by_cases h1 : bin.can_place rect ax ay false = true
    · rw [if_pos h1] at ha
      simp only [Option.some.injEq, Prod.mk.injEq] at ha
      obtain ⟨hx, hy, hrot⟩ := ha
      subst hx; subst hy; subst hrot
      exact ⟨rfl, rfl, h1, by intro hcon; cases hcon⟩
    · rw [if_neg h1] at ha
      by_cases h2 : bin.can_place rect ax ay true = true
      · rw [if_pos h2] at ha
        simp only [Option.some.injEq, Prod.mk.injEq] at ha
        obtain ⟨hx, hy, hrot⟩ := ha
        subst hx; subst hy; subst hrot
        exact ⟨rfl, rfl, h2, fun _ => by simpa using h1⟩
      · rw [if_neg h2] at ha
        cases ha
  obtain ⟨hx, hy, hcp, hrotimp⟩ := hmain
  subst hx; subst hy
  refine ⟨(mem_sorted_candidates bin (ax, ay)).mp hmem_a, hcp, hrotimp, ?_⟩
  intro c hc hlt
  have hcmem : c ∈ l1 ++ (ax, ay) :: l2 := by
    rw [← hsplit]; exact (mem_sorted_candidates bin c).mpr hc
  rcases List.mem_append.mp hcmem with hcl | hcr
  · exact hprefix c hcl
  · rcases List.mem_cons.mp hcr with hce | hcl2
    · exfalso; subst hce; unfold cand_lt at hlt; omega
    · exfalso
      have := hrel2 c hcl2
      unfold cand_le at this; unfold cand_lt at hlt
      obtain ⟨c1, c2⟩ := c
      simp only at this hlt
      omega

/-- find_position_in_box fails exactly when no candidate admits either orientation. -/
theorem find_position_none (bin : BoxBin) (rect : Rect) :
    bin.find_position_in_box rect = none ↔
      ∀ c, is_candidate bin c →
        bin.can_place rect c.1 c.2 false = false ∧
        bin.can_place rect c.1 c.2 true = false := by
  unfold BoxBin.find_position_in_box
  rw [findSome?_none]
  constructor
  · intro h c hc
    exact (position_try_none_iff bin rect c).mp (h c ((mem_sorted_candidates bin c).mpr hc))
  · intro h c hc
    exact (position_try_none_iff bin rect c).mpr (h c ((mem_sorted_candidates bin c).mp hc))

/-- A successful local-search step returns a member of the neighbor list. -/
theorem ls_step_mem {S C : Type} (cost : S → C) (lt : C → C → Bool)
    (nb : S → Option (List S)) (cur next : S) (l : List S) (hnb : nb cur = some l)
    (h : ls_step cost lt nb cur = some (some next)) : next ∈ l := by
  unfold ls_step at h
  rw [hnb] at h
  simp only [Option.map_some'] at h
  exact List.mem_of_find?_eq_some (Option.some_injective _ h)

/-- The local-search loop preserves any property preserved by emitted neighbors. -/
theorem solve_preserves {S C : Type} (P : S → Prop) (cost : S → C) (lt : C → C → Bool)
    (nb : S → Option (List S))
    (hstep : ∀ s l, nb s = some l → ∀ n ∈ l, P s → P n) :
    ∀ fuel cur r, LocalSearch.solve cost lt nb fuel cur = some r → P cur → P r := by
  intro fuel
  induction fuel with
  | zero => intro cur r h; simp [LocalSearch.solve] at h
  | succ fuel ih =>
    intro cur r h hP
    rw [LocalSearch.solve] at h
    cases hs : ls_step cost lt nb cur with
    | none => rw [hs] at h; cases h
    | some o =>
      cases o with
      | none =>
        rw [hs] at h
        obtain rfl : cur = r := Option.some_injective _ h
        exact hP
      | some next =>
        rw [hs] at h
        cases hnb : nb cur with
        | none =>
          exfalso
          unfold ls_step at hs
          rw [hnb] at hs
          cases hs
        | some l =>
          exact ih next r h (hstep cur l hnb next (ls_step_mem cost lt nb cur next l hnb hs) hP)

/-- getD of set at the set position. -/
theorem getD_set_self {α : Type} (l : List α) (i : Nat) (b d : α) (h : i < l.length) :
    (l.set i b).getD i d = b := by
  rw [List.getD_eq_getElem _ _ (by simpa using h)]
  simp [List.getElem_set]

/-- getD of set at another position. -/
theorem getD_set_other {α : Type} (l : List α) (i j : Nat) (b d : α) (h : i ≠ j) :
    (l.set i b).getD j d = l.getD j d := by
  by_cases hj : j < l.length
  · rw [List.getD_eq_getElem _ _ (by simpa using hj), List.getD_eq_getElem _ _ hj]
    simp [List.getElem_set, h]
  · rw [List.getD_eq_default _ _ (by simpa using Nat.le_of_not_lt hj),
      List.getD_eq_default _ _ (Nat.le_of_not_lt hj)]

/-- Setting two distinct in-range positions is, as a multiset, replacing the two
elements there: a common remainder rest witnesses both sides. -/
theorem two_set_perm {α : Type} (d : α) :
    ∀ (l : List α) (i j : Nat) (bi bj : α), i < l.length → j < l.length → i ≠ j →
      ∃ rest : List α, ((l.set i bi).set j bj).Perm (bi :: bj :: rest) ∧
        l.Perm (l.getD i d :: l.getD j d :: rest) := by
  intro l
  induction l with
  | nil => intro i j bi bj hi _ _; simp at hi
  | cons a t ih =>
    intro i j bi bj hi hj hne
    cases i with
    | zero =>
      cases j with
      | zero => exact absurd rfl hne
      | succ j =>
        have hjt : j < t.length := by simpa using hj
        refine ⟨t.eraseIdx j, ?_, ?_⟩
        · have e : ((a :: t).set 0 bi).set (j + 1) bj = bi :: t.set j bj := by simp
          rw [e]
          exact (set_perm_cons_eraseIdx t j bj hjt).cons bi
        · have e1 : (a :: t).getD 0 d = a := by simp
          have e2 : (a :: t).getD (j + 1) d = t.getD j d := by simp
          rw [e1, e2]
          exact (perm_extract d t j hjt).cons a
    | succ i =>
      cases j with
      | zero =>
        have hit : i < t.length := by simpa using hi
        refine ⟨t.eraseIdx i, ?_, ?_⟩
        · have e : ((a :: t).set (i + 1) bi).set 0 bj = bj :: t.set i bi := by simp
          rw [e]
          exact ((set_perm_cons_eraseIdx t i bi hit).cons bj).trans (List.Perm.swap bi bj _)
        · have e1 : (a :: t).getD (i + 1) d = t.getD i d := by simp
          have e2 : (a :: t).getD 0 d = a := by simp
          rw [e1, e2]
          exact ((perm_extract d t i hit).cons a).trans (List.Perm.swap _ a _)
      | succ j =>
        have hit : i < t.length := by simpa using hi
        have hjt : j < t.length := by simpa using hj
        obtain ⟨rest, h1, h2⟩ := ih i j bi bj hit hjt (by omega)
        refine ⟨a :: rest, ?_, ?_⟩
        · have e : ((a :: t).set (i + 1) bi).set (j + 1) bj = a :: (t.set i bi).set j bj := by
            simp
          rw [e]
          exact (h1.cons a).trans
            ((List.Perm.swap bi a _).trans ((List.Perm.swap bj a rest).cons bi))
        · have e1 : (a :: t).getD (i + 1) d = t.getD i d := by simp
          have e2 : (a :: t).getD (j + 1) d = t.getD j d := by simp
          rw [e1, e2]
          exact (h2.cons a).trans
            ((List.Perm.swap _ a _).trans ((List.Perm.swap _ a rest).cons _))

/-- Replacing two distinct positions changes a flatMap only by the contents of the
two replaced elements. -/
theorem flatMap_two_set_perm {α β : Type} (d : α) (F : α → List β)
    (L : List α) (i j : Nat) (bi bj : α) (hi : i < L.length) (hj : j < L.length)
    (hne : i ≠ j)
    (hcontent : (F bi ++ F bj).Perm (F (L.getD i d) ++ F (L.getD j d))) :
    (((L.set i bi).set j bj).flatMap F).Perm (L.flatMap F) := by
  obtain ⟨rest, h1, h2⟩ := two_set_perm d L i j bi bj hi hj hne
  have e1 : (((L.set i bi).set j bj).flatMap F).Perm (F bi ++ F bj ++ rest.flatMap F) := by
    have := List.Perm.flatMap_right F h1
    simpa [List.flatMap_cons, List.append_assoc] using this
  have e2 : (L.flatMap F).Perm (F (L.getD i d) ++ F (L.getD j d) ++ rest.flatMap F) := by
    have := List.Perm.flatMap_right F h2
    simpa [List.flatMap_cons, List.append_assoc] using this
  exact e1.trans ((hcontent.append_right (rest.flatMap F)).trans e2.symm)

/-- swap_remove of an element with empty contents does not change a flatMap, up to
permutation. -/
theorem flatMap_swap_remove_empty {α β : Type} (d : α) (F : α → List β) (L : List α)
    (i : Nat) (hi : i < L.length) (hFi : F (L.getD i d) = []) :
    ((swap_remove L i).flatMap F).Perm (L.flatMap F) := by
  have h1 := List.Perm.flatMap_right F (swap_remove_perm L i hi)
  have h2 := List.Perm.flatMap_right F (perm_extract d L i hi)
  rw [List.flatMap_cons, hFi] at h2
  refine h1.trans ?_
  simpa using h2.symm

/-- The if-then-orElse tail of a relocation: possibly swap_remove of the source slot,
applied after the two replacements; contents-preservation hypotheses as above. -/
theorem flatMap_relocate_core {α β : Type} (d : α) (F : α → List β) (empt : α → Bool)
    (hempty : ∀ b, empt b = true → F b = [])
    (L : List α) (i j : Nat) (bi bj : α) (hi : i < L.length) (hj : j < L.length)
    (hne : i ≠ j)
    (hcontent : (F bi ++ F bj).Perm (F (L.getD i d) ++ F (L.getD j d))) :
    ((if empt (((L.set i bi).set j bj).getD i d) then
        swap_remove ((L.set i bi).set j bj) i
      else (L.set i bi).set j bj).flatMap F).Perm (L.flatMap F) := by
  have hmain := flatMap_two_set_perm d F L i j bi bj hi hj hne hcontent
  by_cases hE : empt (((L.set i bi).set j bj).getD i d) = true
  · rw [if_pos hE]
    have hilen : i < ((L.set i bi).set j bj).length := by simpa using hi
    exact (flatMap_swap_remove_empty d F _ i hilen (hempty _ hE)).trans hmain
  · rw [if_neg hE]
    exact hmain

/-- Swap-removing an element while appending a same-image element elsewhere keeps the
mapped contents, up to permutation. -/
theorem content_swap_lemma {α β : Type} (g : α → β) (pls tpl : List α) (p : Nat)
    (hp : p < pls.length) (d : α) (newp : α) (hnew : g newp = g (pls.getD p d)) :
    ((swap_remove pls p).map g ++ (tpl ++ [newp]).map g).Perm
      (pls.map g ++ tpl.map g) := by
  have hSw := (swap_remove_perm pls p hp).map g
  have hEx := (perm_extract d pls p hp).map g
  rw [List.map_cons] at hEx
  rw [List.map_append]
  refine (hSw.append_right _).trans ?_
  have h2 : ([newp].map g) = [g (pls.getD p d)] := by simp [hnew]
  rw [h2]
  refine (List.Perm.append_left _ (List.perm_append_singleton _ _)).trans ?_
  refine List.perm_middle.trans ?_
  exact (hEx.append_right (tpl.map g)).symm

/-- Relocating one placement preserves the multiset of rectangle occurrences. -/
theorem all_rects_relocate (sol : RectangleSolution) (src p tgt : Nat) (x y : Nat)
    (rot : Bool) (hsrc : src < sol.boxes.length) (htgt : tgt < sol.boxes.length)
    (hne : src ≠ tgt)
    (hp : p < ((sol.boxes.getD src dummy_bin).placements).length) :
    (all_rects (relocate sol src p tgt
        ((sol.boxes.getD src dummy_bin).placements.getD p dummy_placement).rect
        x y rot)).Perm (all_rects sol) := by
  have hcontent := content_swap_lemma (fun q : Placement => q.rect)
    (sol.boxes.getD src dummy_bin).placements
    (sol.boxes.getD tgt dummy_bin).placements p hp dummy_placement
    (Placement.mk ((sol.boxes.getD src dummy_bin).placements.getD p
      dummy_placement).rect x y rot) rfl
  unfold all_rects relocate
  exact flatMap_relocate_core dummy_bin _ (fun b => b.placements.isEmpty)
    (by intro b hb; rw [List.isEmpty_iff] at hb; simp [hb])
    sol.boxes src tgt _ _ hsrc htgt hne hcontent

/-- Relocation never increases the number of bins. -/
theorem relocate_length_le (sol : RectangleSolution) (src p tgt : Nat) (rect : Rect)
    (x y : Nat) (rot : Bool) (hsrc : src < sol.boxes.length) :
    (relocate sol src p tgt rect x y rot).boxes.length ≤ sol.boxes.length := by
  simp only [relocate]
  split
  · rw [swap_remove_length _ _ (by simpa using hsrc)]
    simp only [List.length_set]
    omega
  · simp

/-- Membership in the geometric neighborhood, decomposed into the move data. -/
theorem mem_geometric_neighbors (sol n : RectangleSolution) :
    n ∈ geometric_neighbors sol ↔
      ∃ src p tgt xyr, src < sol.boxes.length ∧
        p < ((sol.boxes.getD src dummy_bin).placements).length ∧
        tgt < sol.boxes.length ∧ src ≠ tgt ∧
        (sol.boxes.getD tgt dummy_bin).find_position_in_box
          ((sol.boxes.getD src dummy_bin).placements.getD p dummy_placement).rect =
          some xyr ∧
        n = relocate sol src p tgt
          ((sol.boxes.getD src dummy_bin).placements.getD p dummy_placement).rect
          xyr.1 xyr.2.1 xyr.2.2 := by
  unfold geometric_neighbors
  simp only [List.mem_flatMap, List.mem_filterMap, List.mem_range]
  constructor
  · rintro ⟨src, hsrc, p, hp, tgt, htgt, hf⟩
    by_cases he : src = tgt
    · rw [if_pos he] at hf; cases hf
    · rw [if_neg he] at hf
      cases hfind : (sol.boxes.getD tgt dummy_bin).find_position_in_box
          ((sol.boxes.getD src dummy_bin).placements.getD p dummy_placement).rect with
      | none => rw [hfind] at hf; cases hf
      | some xyr =>
        rw [hfind] at hf
        simp only [Option.map_some', Option.some.injEq] at hf
        exact ⟨src, p, tgt, xyr, hsrc, hp, htgt, he, hfind, hf.symm⟩
  · rintro ⟨src, p, tgt, xyr, hsrc, hp, htgt, hne, hfind, hn⟩
    refine ⟨src, hsrc, p, hp, tgt, htgt, ?_⟩
    rw [if_neg hne, hfind]
    simp [hn]

/-- A geometric neighbor never has more bins than its origin. -/
theorem geometric_neighbors_length_le (sol n : RectangleSolution)
    (h : n ∈ geometric_neighbors sol) : n.boxes.length ≤ sol.boxes.length := by
  obtain ⟨src, p, tgt, xyr, hsrc, _, _, _, _, hn⟩ :=
    (mem_geometric_neighbors sol n).mp h
  rw [hn]
  exact relocate_length_le sol src p tgt _ xyr.1 xyr.2.1 xyr.2.2 hsrc

/-- Relocating with an admissible target placement preserves the overlap-free
invariant. -/
theorem no_overlap_relocate (sol : RectangleSolution) (src p tgt : Nat) (rect : Rect)
    (x y : Nat) (rot : Bool) (hsrc : src < sol.boxes.length)
    (htgt : tgt < sol.boxes.length) (_hne : src ≠ tgt)
    (hp : p < ((sol.boxes.getD src dummy_bin).placements).length)
    (hcp : (sol.boxes.getD tgt dummy_bin).can_place rect x y rot = true)
    (hno : no_overlap sol) : no_overlap (relocate sol src p tgt rect x y rot) := by
  have hsymm : ∀ {u v : Placement},
      u.intersection_area v = 0 → v.intersection_area u = 0 := by
    intro u v h
    rw [intersection_area_comm]
    exact h
  have hsrc_mem : sol.boxes.getD src dummy_bin ∈ sol.boxes := by
    rw [List.getD_eq_getElem _ _ hsrc]
    exact List.getElem_mem hsrc
  have htgt_mem : sol.boxes.getD tgt dummy_bin ∈ sol.boxes := by
    rw [List.getD_eq_getElem _ _ htgt]
    exact List.getElem_mem htgt
  have hA : List.Pairwise (fun u v => u.intersection_area v = 0)
      (swap_remove (sol.boxes.getD src dummy_bin).placements p) := by
    refine ((swap_remove_perm _ p hp).pairwise_iff hsymm).mpr ?_
    exact List.Pairwise.sublist (List.eraseIdx_sublist _ p) (hno _ hsrc_mem)
  have hB : List.Pairwise (fun u v => u.intersection_area v = 0)
      ((sol.boxes.getD tgt dummy_bin).placements ++ [⟨rect, x, y, rot⟩]) := by
    rw [List.pairwise_append]
    refine ⟨hno _ htgt_mem, by simp, ?_⟩
    intro a ha b hb
    obtain rfl : b = (⟨rect, x, y, rot⟩ : Placement) := by simpa using hb
    obtain ⟨_, _, hinter⟩ := (can_place_iff _ rect x y rot).mp hcp
    exact hsymm (intersection_area_zero_of_not_intersects _ _ (hinter a ha))
  intro b hb
  simp only [relocate] at hb
  have hb2 : b ∈ (sol.boxes.set src
      { sol.boxes.getD src dummy_bin with
        placements := swap_remove (sol.boxes.getD src dummy_bin).placements p }).set tgt
      { sol.boxes.getD tgt dummy_bin with
        placements := (sol.boxes.getD tgt dummy_bin).placements ++ [⟨rect, x, y, rot⟩] } := by
    split at hb
    · have hlen : src < ((sol.boxes.set src
          { sol.boxes.getD src dummy_bin with
            placements := swap_remove (sol.boxes.getD src dummy_bin).placements p }).set tgt
          { sol.boxes.getD tgt dummy_bin with
            placements := (sol.boxes.getD tgt dummy_bin).placements ++
              [⟨rect, x, y, rot⟩] }).length := by
        simpa using hsrc
      have := ((swap_remove_perm _ src hlen).mem_iff).mp hb
      exact (List.eraseIdx_sublist _ src).subset this
    · exact hb
  rcases List.mem_or_eq_of_mem_set hb2 with hb3 | hb3
  · rcases List.mem_or_eq_of_mem_set hb3 with hb4 | hb4
    · exact hno b hb4
    · rw [hb4]
      exact hA
  · rw [hb3]
    exact hB

/-- Every geometric neighbor of an overlap-free solution is overlap-free. -/
theorem no_overlap_geometric (sol n : RectangleSolution)
    (h : n ∈ geometric_neighbors sol) (hno : no_overlap sol) : no_overlap n := by
  obtain ⟨src, p, tgt, xyr, hsrc, hp, htgt, hne, hfind, hn⟩ :=
    (mem_geometric_neighbors sol n).mp h
  obtain ⟨x, y, rot⟩ := xyr
  have hcp := (find_position_some _ _ x y rot hfind).2.1
  rw [hn]
  exact no_overlap_relocate sol src p tgt _ x y rot hsrc htgt hne hp hcp hno

/-- Characterization of the fold behind max_by_key: none exactly on the empty list;
otherwise the result attains the maximal key and everything after its position is
strictly smaller (so ties select the last occurrence). -/
theorem max_by_key_spec {α : Type} (key : α → Nat) (l : List α) :
    (max_by_key key l = none ↔ l = []) ∧
    (∀ m, max_by_key key l = some m →
      (∀ z ∈ l, key z ≤ key m) ∧
      ∃ l1 l2, l = l1 ++ m :: l2 ∧ ∀ z ∈ l2, key z < key m) := by
  induction l using List.reverseRecOn with
  | nil => simp [max_by_key]
  | append_singleton t a ih =>
    have hstep : max_by_key key (t ++ [a]) =
        match max_by_key key t with
        | none => some a
        | some m => if key m ≤ key a then some a else some m := by
      simp [max_by_key, List.foldl_append]
    cases hmt : max_by_key key t with
    | none =>
      obtain rfl : t = [] := ih.1.mp hmt
      simp only [hstep, hmt]
      constructor
      · simp
      · intro m hm
        obtain rfl : a = m := Option.some_injective _ hm
        exact ⟨by simp, [], [], by simp, by simp⟩
    | some m0 =>
      obtain ⟨hmax0, l1, l2, hdec, hafter⟩ := ih.2 m0 hmt
      simp only [hstep, hmt]
      by_cases hle : key m0 ≤ key a
      · rw [if_pos hle]
        constructor
        · simp
        · intro m hm
          obtain rfl : a = m := Option.some_injective _ hm
          refine ⟨?_, t, [], by simp, by simp⟩
          intro z hz
          rcases List.mem_append.mp hz with hz | hz
          · exact Nat.le_trans (hmax0 z hz) hle
          · obtain rfl : z = a := by simpa using hz
            exact Nat.le_refl _
      · rw [if_neg hle]
        constructor
        · simp
        · intro m hm
          obtain rfl : m0 = m := Option.some_injective _ hm
          refine ⟨?_, l1, l2 ++ [a], by rw [hdec]; simp, ?_⟩
          · intro z hz
            rcases List.mem_append.mp hz with hz | hz
            · exact hmax0 z hz
            · obtain rfl : z = a := by simpa using hz
              omega
          · intro z hz
            rcases List.mem_append.mp hz with hz | hz
            · exact hafter z hz
            · obtain rfl : z = a := by simpa using hz
              omega

/-- List sums as indexed range sums over getD. -/
theorem map_sum_getD {α : Type} (f : α → Int) (d : α) :
    ∀ l : List α, (l.map f).sum = ∑ i ∈ Finset.range l.length, f (l.getD i d) := by
  intro l
  induction l with
  | nil => simp
  | cons a t ih =>
    rw [List.map_cons, List.sum_cons, ih, List.length_cons, Finset.sum_range_succ']
    simp only [List.getD_cons_succ, List.getD_cons_zero]
    omega

/-- The nested i < j loop of the penalty term computes the indexed pairwise sum of
the spec (the `> 0` guard is redundant since zero contributes zero). -/
theorem pair_overlap_eq_spec :
    ∀ l : List Placement, pair_overlap l = spec_bin_overlap l := by
  intro l
  induction l with
  | nil => simp [pair_overlap, spec_bin_overlap]
  | cons p rest ih =>
    rw [pair_overlap, ih]
    have hfun : (fun q =>
        let intersect := p.intersection_area q
        if 0 < intersect then (intersect : Int) else 0) =
        (fun q => (p.intersection_area q : Int)) := by
      funext q
      by_cases h : 0 < p.intersection_area q
      · simp [h]
      · rw [if_neg h]
        omega
    rw [hfun]
    unfold spec_bin_overlap
    rw [List.length_cons, Finset.sum_range_succ']
    have hzero : (∑ j ∈ Finset.Ico (0 + 1) (rest.length + 1),
        (((p :: rest).getD 0 dummy_placement).intersection_area
          ((p :: rest).getD j dummy_placement) : Int)) =
        (rest.map (fun q => (p.intersection_area q : Int))).sum := by
      rw [Finset.sum_Ico_eq_sum_range]
      simp only [Nat.add_sub_cancel]
      rw [map_sum_getD _ dummy_placement]
      refine Finset.sum_congr rfl ?_
      intro k _
      rw [Nat.add_comm 1 k]
      simp [List.getD_cons_succ, List.getD_cons_zero]
    have hrest : (∑ i ∈ Finset.range rest.length,
        ∑ j ∈ Finset.Ico (i + 1 + 1) (rest.length + 1),
          (((p :: rest).getD (i + 1) dummy_placement).intersection_area
            ((p :: rest).getD j dummy_placement) : Int)) =
        ∑ i ∈ Finset.range rest.length, ∑ j ∈ Finset.Ico (i + 1) rest.length,
          ((rest.getD i dummy_placement).intersection_area
            (rest.getD j dummy_placement) : Int) := by
      refine Finset.sum_congr rfl ?_
      intro i _
      rw [Finset.sum_Ico_eq_sum_range, Finset.sum_Ico_eq_sum_range]
      have hb : rest.length + 1 - (i + 1 + 1) = rest.length - (i + 1) := by omega
      rw [hb]
      refine Finset.sum_congr rfl ?_
      intro k _
      have hidx : i + 1 + 1 + k = (i + 1 + k) + 1 := by omega
      rw [hidx]
      simp [List.getD_cons_succ]
    rw [hzero, hrest]
    omega

/-- Claim C7: RectangleSolution::cost equals the spec's cost model: without a
penalty factor the pair (bin count, negated sum over bins of squared used area);
with a penalty factor p the pair (0, total pairwise intersection area times p, plus
the negated sum of squared per-bin used areas, plus bin count times capacity^4 + 1). -/
theorem cost_eq_spec (s : RectangleSolution) : s.cost = spec_cost s := by
  unfold RectangleSolution.cost spec_cost
  cases hpf : s.penalty_factor with
  | none =>
    simp only [hpf]
    unfold spec_density
    rw [map_sum_getD (fun b => ((BoxBin.used_area b : Int)) ^ 2) dummy_bin]
  | some pf =>
    simp only [hpf]
    unfold spec_total_overlap spec_density
    rw [map_sum_getD (fun b => ((BoxBin.used_area b : Int)) ^ 2) dummy_bin,
      map_sum_getD (fun b => pair_overlap b.placements) dummy_bin]
    congr 1
    refine congrArg (fun z => z * pf + _ + _) ?_
    refine Finset.sum_congr rfl ?_
    intro i _
    exact pair_overlap_eq_spec _

/-- A flatMap over a range splits around any in-range index. -/
theorem flatMap_range_split {β : Type} (G : Nat → List β) (n i : Nat) (hi : i < n) :
    ∃ pre post, (List.range n).flatMap G = pre ++ (G i ++ post) := by
  obtain ⟨k, rfl⟩ : ∃ k, n = i + (k + 1) := ⟨n - i - 1, by omega⟩
  refine ⟨(List.range i).flatMap G,
    ((List.range k).map (fun t => i + Nat.succ t)).flatMap G, ?_⟩
  rw [List.range_add, List.flatMap_append]
  congr 1
  rw [List.range_succ_eq_map]
  simp only [List.map_cons, List.flatMap_cons, Nat.add_zero, List.map_map]
  rfl

/-- The overlap neighborhood's enumeration around one placement: its existing-bin
relocations as one contiguous segment, immediately followed by its new-bin move. -/
theorem overlap_moves_split (sol : RectangleSolution) (limit : ℚ) (src p : Nat)
    (hsrc : src < sol.boxes.length)
    (hp : p < ((sol.boxes.getD src dummy_bin).placements).length) :
    ∃ pre post, overlap_moves sol limit =
      pre ++ (overlap_relocations sol limit src p ++ (new_box_move sol src p :: post)) := by
  obtain ⟨pre1, post1, h1⟩ := flatMap_range_split
    (fun src2 => (List.range ((sol.boxes.getD src2 dummy_bin).placements).length).flatMap
      (fun p2 => overlap_relocations sol limit src2 p2 ++ [new_box_move sol src2 p2]))
    sol.boxes.length src hsrc
  obtain ⟨pre2, post2, h2⟩ := flatMap_range_split
    (fun p2 => overlap_relocations sol limit src p2 ++ [new_box_move sol src p2])
    ((sol.boxes.getD src dummy_bin).placements).length p hp
  refine ⟨pre1 ++ pre2, post2 ++ post1, ?_⟩
  unfold overlap_moves
  rw [h1, h2]
  simp [List.append_assoc]

/-- Every admitting other bin contributes its relocation to the segment preceding the
new-bin move. -/
theorem mem_overlap_relocations (sol : RectangleSolution) (limit : ℚ) (src p tgt : Nat)
    (xyr : Nat × Nat × Bool) (htgt : tgt < sol.boxes.length) (hne : src ≠ tgt)
    (hfind : find_position_with_overlap (sol.boxes.getD tgt dummy_bin)
      ((sol.boxes.getD src dummy_bin).placements.getD p dummy_placement).rect limit =
      some xyr) :
    relocate sol src p tgt
      ((sol.boxes.getD src dummy_bin).placements.getD p dummy_placement).rect
      xyr.1 xyr.2.1 xyr.2.2 ∈ overlap_relocations sol limit src p := by
  unfold overlap_relocations
  rw [List.mem_filterMap]
  refine ⟨tgt, List.mem_range.mpr htgt, ?_⟩
  rw [if_neg hne, hfind]
  rfl

end Helpers

section Claims

/-- Claim C2: try_place returns false and leaves the bin's placement list unchanged
exactly when the rectangle's effective extent at (x, y) exceeds the capacity on
either axis or the candidate placement intersects some existing placement in the
bin; otherwise it appends the new placement and returns true. -/
theorem try_place_characterization (bin : BoxBin) (rect : Rect) (x y : Nat)
    (rotated : Bool) :
    (bin.try_place rect x y rotated = (false, bin) ↔
      (bin.capacity < x + Placement.width ⟨rect, x, y, rotated⟩ ∨
       bin.capacity < y + Placement.height ⟨rect, x, y, rotated⟩ ∨
       ∃ q ∈ bin.placements, Placement.intersects ⟨rect, x, y, rotated⟩ q = true)) ∧
    (¬(bin.capacity < x + Placement.width ⟨rect, x, y, rotated⟩ ∨
       bin.capacity < y + Placement.height ⟨rect, x, y, rotated⟩ ∨
       ∃ q ∈ bin.placements, Placement.intersects ⟨rect, x, y, rotated⟩ q = true) →
      bin.try_place rect x y rotated =
        (true, ⟨bin.capacity, bin.placements ++ [⟨rect, x, y, rotated⟩]⟩)) := by
  have hiff : bin.can_place rect x y rotated = true ↔
      ¬(bin.capacity < x + Placement.width ⟨rect, x, y, rotated⟩ ∨
        bin.capacity < y + Placement.height ⟨rect, x, y, rotated⟩ ∨
        ∃ q ∈ bin.placements, Placement.intersects ⟨rect, x, y, rotated⟩ q = true) := by
    rw [can_place_iff]
    constructor
    · rintro ⟨h1, h2, h3⟩ (hc | hc | ⟨q, hq, hqi⟩)
      · omega
      · omega
      · rw [h3 q hq] at hqi; cases hqi
    · intro hc
      push_neg at hc
      obtain ⟨h1, h2, h3⟩ := hc
      refine ⟨by omega, by omega, ?_⟩
      intro e he
      simpa using h3 e he
  rw [try_place_eq]
  by_cases hcp : bin.can_place rect x y rotated = true
  · rw [if_pos hcp]
    refine ⟨⟨fun hfalse => ?_, fun hc => absurd hc (hiff.mp hcp)⟩, fun _ => rfl⟩
    exact absurd (congrArg Prod.fst hfalse) (by simp)
  · rw [if_neg hcp]
    have hconds : bin.capacity < x + Placement.width ⟨rect, x, y, rotated⟩ ∨
        bin.capacity < y + Placement.height ⟨rect, x, y, rotated⟩ ∨
        ∃ q ∈ bin.placements, Placement.intersects ⟨rect, x, y, rotated⟩ q = true := by
      by_contra hnc
      exact hcp (hiff.mpr hnc)
    exact ⟨⟨fun _ => hconds, fun _ => rfl⟩, fun hnc => absurd hconds hnc⟩

/-- Witness for C2 at a concrete input: an in-bounds placement into an empty bin
succeeds and appends. -/
theorem try_place_characterization_witness :
    BoxBin.try_place ⟨10, []⟩ ⟨0, 4, 6⟩ 0 0 false =
      (true, ⟨10, [⟨⟨0, 4, 6⟩, 0, 0, false⟩]⟩) :=
  (try_place_characterization ⟨10, []⟩ ⟨0, 4, 6⟩ 0 0 false).2 (by decide)

/-- Claim C3: the candidate-anchor search considers exactly the origin plus the
filtered corner points of existing placements; it scans candidates in ascending
(y, x) order trying axis-aligned before rotated, returns the first admissible
candidate-orientation pair (every bottom-left-earlier candidate admits neither
orientation), fails exactly when no candidate admits the rectangle, and
try_place_cp is this search followed by the push of the found placement. -/
theorem find_position_characterization (bin : BoxBin) (rect : Rect) :
    (∀ c, c ∈ sorted_candidates bin ↔ is_candidate bin c) ∧
    (∀ x y rot, bin.find_position_in_box rect = some (x, y, rot) →
      is_candidate bin (x, y) ∧ bin.can_place rect x y rot = true ∧
      (rot = true → bin.can_place rect x y false = false) ∧
      ∀ c, is_candidate bin c → cand_lt c (x, y) →
        bin.can_place rect c.1 c.2 false = false ∧
        bin.can_place rect c.1 c.2 true = false) ∧
    (bin.find_position_in_box rect = none ↔
      ∀ c, is_candidate bin c → bin.can_place rect c.1 c.2 false = false ∧
        bin.can_place rect c.1 c.2 true = false) ∧
    (try_place_cp bin rect =
      match bin.find_position_in_box rect with
      | some r => (true, ⟨bin.capacity, bin.placements ++ [⟨rect, r.1, r.2.1, r.2.2⟩]⟩)
      | none => (false, bin)) :=
  ⟨mem_sorted_candidates bin, fun x y rot h => find_position_some bin rect x y rot h,
    find_position_none bin rect, try_place_cp_eq bin rect⟩

/-- Witness for C3 at a concrete input: the found anchor (4, 0) admits the 6 by 4
rectangle axis-aligned. -/
theorem find_position_characterization_witness :
    BoxBin.can_place c3_bin ⟨1, 6, 4⟩ 4 0 false = true :=
  ((find_position_characterization c3_bin ⟨1, 6, 4⟩).2.1 4 0 false (by decide)).2.1

/-- Claim C4: the local-search skeleton adopts, per round, the first neighbor in the
produced order whose cost is strictly below the current cost, and when no neighbor
improves it terminates returning the current solution unchanged. -/
theorem local_search_first_improvement {S C : Type} (cost : S → C) (lt : C → C → Bool)
    (nb : S → Option (List S)) (cur : S) (l : List S) (hnb : nb cur = some l) :
    (∀ next, ls_step cost lt nb cur = some (some next) →
      ∃ i, ∃ h : i < l.length, l.get ⟨i, h⟩ = next ∧ lt (cost next) (cost cur) = true ∧
        ∀ j, ∀ hj : j < l.length, j < i → lt (cost (l.get ⟨j, hj⟩)) (cost cur) = false) ∧
    ((∀ n2 ∈ l, lt (cost n2) (cost cur) = false) →
      ∀ fuel, LocalSearch.solve cost lt nb (fuel + 1) cur = some cur) := by
  constructor
  · intro next h
    unfold ls_step at h
    rw [hnb] at h
    simp only [Option.map_some'] at h
    exact find?_first _ l next (Option.some_injective _ h)
  · intro hno fuel
    rw [LocalSearch.solve]
    have hstep : ls_step cost lt nb cur = some none := by
      unfold ls_step
      rw [hnb]
      simp only [Option.map_some', Option.some.injEq]
      rw [List.find?_eq_none]
      intro z hz
      simp [hno z hz]
    rw [hstep]

/-- Witness for C4 at a concrete instance: with no improving neighbor the loop
returns the current solution. -/
theorem local_search_first_improvement_witness :
    LocalSearch.solve (fun n : Nat => n) (fun a b => decide (a < b))
      (fun _ => some [5, 7]) 1 3 = some 3 :=
  (local_search_first_improvement (fun n : Nat => n) (fun a b => decide (a < b))
    (fun _ => some [5, 7]) 3 [5, 7] rfl).2 (by decide) 0

/-- Counterexample to C5 as stated: on a tie both strategies return the LAST
occurrence of the maximum, not the first (the head attains the maximum here, yet
the other rectangle is returned). -/
theorem selection_strategies_counterexample :
    SortByAreaStrategy.next_candidate c5_state = some ⟨1, 3, 2⟩ ∧
    SortByMaxSideStrategy.next_candidate c5_state = some ⟨1, 3, 2⟩ ∧
    c5_state.remaining_rects.head? = some ⟨0, 2, 3⟩ ∧
    Rect.area ⟨0, 2, 3⟩ = Rect.area ⟨1, 3, 2⟩ ∧
    max 2 3 = max 3 2 ∧
    (⟨1, 3, 2⟩ : Rect) ≠ ⟨0, 2, 3⟩ := by
  decide

/-- Claim C5 as amended: each strategy returns a remaining rectangle of maximal key
(area, or longest side), and on ties the LAST occurrence in the remaining sequence
is returned (every element after the returned one has a strictly smaller key);
nothing is returned exactly when no rectangle remains. -/
theorem selection_strategies_max (st : RectangleGreedyState) :
    (∀ m, SortByAreaStrategy.next_candidate st = some m →
      (∀ z ∈ st.remaining_rects, z.area ≤ m.area) ∧
      ∃ l1 l2, st.remaining_rects = l1 ++ m :: l2 ∧ ∀ z ∈ l2, z.area < m.area) ∧
    (SortByAreaStrategy.next_candidate st = none ↔ st.remaining_rects = []) ∧
    (∀ m, SortByMaxSideStrategy.next_candidate st = some m →
      (∀ z ∈ st.remaining_rects, max z.width z.height ≤ max m.width m.height) ∧
      ∃ l1 l2, st.remaining_rects = l1 ++ m :: l2 ∧
        ∀ z ∈ l2, max z.width z.height < max m.width m.height) ∧
    (SortByMaxSideStrategy.next_candidate st = none ↔ st.remaining_rects = []) := by
  have h1 := max_by_key_spec Rect.area st.remaining_rects
  have h2 := max_by_key_spec (fun r => max r.width r.height) st.remaining_rects
  exact ⟨h1.2, h1.1, h2.2, h2.1⟩

/-- Witness for the amended C5 at the tie instance: the returned rectangle is the
last occurrence of the maximal area. -/
theorem selection_strategies_max_witness :
    ∃ l1 l2, c5_state.remaining_rects = l1 ++ (⟨1, 3, 2⟩ : Rect) :: l2 ∧
      ∀ z ∈ l2, z.area < Rect.area ⟨1, 3, 2⟩ :=
  ((selection_strategies_max c5_state).1 ⟨1, 3, 2⟩ (by decide)).2

/-- Counterexample to C6 as stated: bin 1 admits the rectangle of placement (0, 0)
within tolerance 0 (at anchor (1, 0)), yet the new-bin neighbor for that placement
is still emitted by the enumeration. -/
theorem overlap_new_bin_counterexample :
    find_position_with_overlap (c6c_sol.boxes.getD 1 dummy_bin) ⟨0, 1, 1⟩ 0 =
      some (1, 0, false) ∧
    new_box_move c6c_sol 0 0 ∈ overlap_moves c6c_sol 0 := by
  decide

/-- Claim C6 as amended: for every solution with a penalty factor and every
placement, the overlap neighborhood unconditionally emits a new-bin neighbor for
that placement — even when an existing bin admits the rectangle within tolerance —
and it appears immediately after the contiguous segment of that placement's
existing-bin relocation neighbors. -/
theorem overlap_new_bin_always (sol : RectangleSolution) (limit : ℚ) (pf : Int)
    (hpf : sol.penalty_factor = some pf) (src p : Nat)
    (hsrc : src < sol.boxes.length)
    (hp : p < ((sol.boxes.getD src dummy_bin).placements).length) :
    OverlappingNeighborhood.neighbors limit sol = some (overlap_moves sol limit) ∧
    (∀ tgt xyr, tgt < sol.boxes.length → src ≠ tgt →
      find_position_with_overlap (sol.boxes.getD tgt dummy_bin)
        ((sol.boxes.getD src dummy_bin).placements.getD p dummy_placement).rect limit =
        some xyr →
      relocate sol src p tgt
        ((sol.boxes.getD src dummy_bin).placements.getD p dummy_placement).rect
        xyr.1 xyr.2.1 xyr.2.2 ∈ overlap_relocations sol limit src p) ∧
    ∃ pre post, overlap_moves sol limit =
      pre ++ (overlap_relocations sol limit src p ++ (new_box_move sol src p :: post)) := by
  refine ⟨?_, ?_, overlap_moves_split sol limit src p hsrc hp⟩
  · unfold OverlappingNeighborhood.neighbors
    rw [hpf]
  · intro tgt xyr htgt hne hfind
    exact mem_overlap_relocations sol limit src p tgt xyr htgt hne hfind

/-- Witness for the amended C6 at a concrete solution: the enumeration around
placement (0, 0) is its relocations followed by its new-bin move. -/
theorem overlap_new_bin_always_witness :
    ∃ pre post, overlap_moves c6c_sol 0 =
      pre ++ (overlap_relocations c6c_sol 0 0 0 ++ (new_box_move c6c_sol 0 0 :: post)) :=
  (overlap_new_bin_always c6c_sol 0 1 rfl 0 0 (by decide) (by decide)).2.2

/-- lexLt is irreflexive. -/
theorem lexLt_irrefl (a : Nat × Int) : lexLt a a = false := by
  simp [lexLt]

/-- lexLt evaluates to false exactly when the pair is not lexicographically below. -/
theorem lexLt_eq_false_iff (a b : Nat × Int) :
    lexLt a b = false ↔ ¬(a.1 < b.1 ∨ (a.1 = b.1 ∧ a.2 < b.2)) := by
  unfold lexLt
  by_cases h1 : a.1 < b.1 <;> by_cases h2 : a.1 = b.1 <;> by_cases h3 : a.2 < b.2 <;>
    simp [h1, h2, h3]

/-- The penalty-mode cost, spelled out on a structure literal. -/
theorem cost_some (inst : Instance) (bins : List BoxBin) (pen : Int) :
    RectangleSolution.cost ⟨inst, bins, some pen⟩ =
      (0, (bins.map (fun bin => pair_overlap bin.placements)).sum * pen +
        -((bins.map (fun bin => ((bin.used_area : Int)) ^ 2)).sum) +
        ((bins.length : Int)) * (((inst.box_size : Int)) ^ 4 + 1)) := rfl

/-- One unfolding step of the annealing phase loop, given the phase's local-search
outcome. -/
theorem phases_step (fuel steps : Nat) (percent : ℚ) (sol sol2 : RectangleSolution)
    (p : Int)
    (hs : LocalSearch.solve RectangleSolution.cost lexLt
      (OverlappingNeighborhood.neighbors percent) fuel sol = some sol2)
    (hp : sol2.penalty_factor = some p) :
    run_overlapping_phases fuel (steps + 1) percent sol =
      run_overlapping_phases fuel steps
        (if percent - 1 / 10 < 0 then 0 else percent - 1 / 10)
        { sol2 with penalty_factor := some (p * 5) } := by
  rw [run_overlapping_phases]
  simp only [hs, hp]

/-- Phase 0 (full tolerance): the first improving neighbor stacks rectangle 0 onto
rectangle 1 in one bin, and that merged state is a local optimum of the phase. -/
theorem c1_phase0 :
    LocalSearch.solve RectangleSolution.cost lexLt
      (OverlappingNeighborhood.neighbors 1) 3 c1_start = some (c1_merged 10) := by
  decide

/-- In the merged state the only neighbors re-open a bin for one rectangle, which
never improves while the penalty factor is at most 27000000 (splitting saves
9000000 times the penalty in overlap but costs one bin weight minus the density
change). -/
theorem c1_phase_stall (percent : ℚ) (pen : Int) (hpen : pen ≤ 27000000) (fuel : Nat) :
    LocalSearch.solve RectangleSolution.cost lexLt
      (OverlappingNeighborhood.neighbors percent) (fuel + 1) (c1_merged pen) =
      some (c1_merged pen) := by
  have hMsum : (c1_bins.map (fun bin => pair_overlap bin.placements)).sum = 9000000 := by
    decide
  have hMden : ((c1_bins.map (fun bin => ((bin.used_area : Int)) ^ 2)).sum) =
      324000000000000 := by decide
  have hMlen : ((c1_bins.length : Nat) : Int) = 1 := by decide
  have hSsum : (c1_split_bins.map (fun bin => pair_overlap bin.placements)).sum = 0 := by
    decide
  have hSden : ((c1_split_bins.map (fun bin => ((bin.used_area : Int)) ^ 2)).sum) =
      162000000000000 := by decide
  have hSlen : ((c1_split_bins.length : Nat) : Int) = 2 := by decide
  have hS2sum : (c1_split_bins2.map (fun bin => pair_overlap bin.placements)).sum = 0 := by
    decide
  have hS2den : ((c1_split_bins2.map (fun bin => ((bin.used_area : Int)) ^ 2)).sum) =
      162000000000000 := by decide
  have hS2len : ((c1_split_bins2.length : Nat) : Int) = 2 := by decide
  have hW : (((c1_instance.box_size : Int)) ^ 4 + 1) = 81000000000001 := by decide
  have hcur : RectangleSolution.cost (c1_merged pen) =
      (0, 9000000 * pen + -324000000000000 + 1 * 81000000000001) := by
    rw [show c1_merged pen = ⟨c1_instance, c1_bins, some pen⟩ from rfl, cost_some,
      hMsum, hMden, hMlen, hW]
  have hv0 : new_box_move (c1_merged pen) 0 0 =
      ⟨c1_instance, c1_split_bins, some pen⟩ := rfl
  have hv1 : new_box_move (c1_merged pen) 0 1 =
      ⟨c1_instance, c1_split_bins2, some pen⟩ := rfl
  have hn0 : RectangleSolution.cost (new_box_move (c1_merged pen) 0 0) =
      (0, 0 * pen + -162000000000000 + 2 * 81000000000001) := by
    rw [hv0, cost_some, hSsum, hSden, hSlen, hW]
  have hn1 : RectangleSolution.cost (new_box_move (c1_merged pen) 0 1) =
      (0, 0 * pen + -162000000000000 + 2 * 81000000000001) := by
    rw [hv1, cost_some, hS2sum, hS2den, hS2len, hW]
  refine (local_search_first_improvement _ _ _ _ _ rfl).2 ?_ fuel
  intro n2 hn2
  have hl : overlap_moves (c1_merged pen) percent =
      [new_box_move (c1_merged pen) 0 0, new_box_move (c1_merged pen) 0 1] := rfl
  rw [hl] at hn2
  rcases List.mem_cons.mp hn2 with rfl | hn2
  · rw [hn0, hcur, lexLt_eq_false_iff]
    intro hcon
    rcases hcon with hcon | ⟨_, hcon⟩
    · exact absurd hcon (by omega)
    · omega
  · obtain rfl : n2 = new_box_move (c1_merged pen) 0 1 := by simpa using hn2
    rw [hn1, hcur, lexLt_eq_false_iff]
    intro hcon
    rcases hcon with hcon | ⟨_, hcon⟩
    · exact absurd hcon (by omega)
    · omega

/-- The ten phases on c1_instance: merge in phase 0, then stall while the penalty
grows to 10 times 5 to the 10th. -/
theorem c1_phases :
    run_overlapping_phases 3 10 1 c1_start = some (c1_merged 97656250) := by
  rw [phases_step 3 9 1 c1_start (c1_merged 10) 10 c1_phase0 rfl]
  rw [show ({ c1_merged 10 with penalty_factor := some (10 * 5) } : RectangleSolution)
    = c1_merged 50 from rfl]
  rw [phases_step 3 8 _ _ (c1_merged 50) 50 (c1_phase_stall _ 50 (by decide) 2) rfl]
  rw [show ({ c1_merged 50 with penalty_factor := some (50 * 5) } : RectangleSolution)
    = c1_merged 250 from rfl]
  rw [phases_step 3 7 _ _ (c1_merged 250) 250 (c1_phase_stall _ 250 (by decide) 2) rfl]
  rw [show ({ c1_merged 250 with penalty_factor := some (250 * 5) } : RectangleSolution)
    = c1_merged 1250 from rfl]
  rw [phases_step 3 6 _ _ (c1_merged 1250) 1250
    (c1_phase_stall _ 1250 (by decide) 2) rfl]
  rw [show ({ c1_merged 1250 with penalty_factor := some (1250 * 5) } : RectangleSolution)
    = c1_merged 6250 from rfl]
  rw [phases_step 3 5 _ _ (c1_merged 6250) 6250
    (c1_phase_stall _ 6250 (by decide) 2) rfl]
  rw [show ({ c1_merged 6250 with penalty_factor := some (6250 * 5) } : RectangleSolution)
    = c1_merged 31250 from rfl]
  rw [phases_step 3 4 _ _ (c1_merged 31250) 31250
    (c1_phase_stall _ 31250 (by decide) 2) rfl]
  rw [show ({ c1_merged 31250 with penalty_factor := some (31250 * 5) } : RectangleSolution)
    = c1_merged 156250 from rfl]
  rw [phases_step 3 3 _ _ (c1_merged 156250) 156250
    (c1_phase_stall _ 156250 (by decide) 2) rfl]
  rw [show ({ c1_merged 156250 with penalty_factor := some (156250 * 5) } : RectangleSolution)
    = c1_merged 781250 from rfl]
  rw [phases_step 3 2 _ _ (c1_merged 781250) 781250
    (c1_phase_stall _ 781250 (by decide) 2) rfl]
  rw [show ({ c1_merged 781250 with penalty_factor := some (781250 * 5) } : RectangleSolution)
    = c1_merged 3906250 from rfl]
  rw [phases_step 3 1 _ _ (c1_merged 3906250) 3906250
    (c1_phase_stall _ 3906250 (by decide) 2) rfl]
  rw [show ({ c1_merged 3906250 with penalty_factor := some (3906250 * 5) } : RectangleSolution)
    = c1_merged 19531250 from rfl]
  rw [phases_step 3 0 _ _ (c1_merged 19531250) 19531250
    (c1_phase_stall _ 19531250 (by decide) 2) rfl]
  rw [show ({ c1_merged 19531250 with penalty_factor := some (19531250 * 5) } :
    RectangleSolution) = c1_merged 97656250 from rfl]
  rw [run_overlapping_phases]

/-- The final geometric pass on the single merged bin has no neighbors at all, so
it returns the overlapping state unchanged. -/
theorem c1_final_geo :
    LocalSearch.solve RectangleSolution.cost lexLt GeometricNeighborhood.neighbors 3
      { c1_merged 97656250 with penalty_factor := none } = some c1_result := by
  have h := (local_search_first_improvement RectangleSolution.cost lexLt
    GeometricNeighborhood.neighbors
    { c1_merged 97656250 with penalty_factor := none }
    (geometric_neighbors { c1_merged 97656250 with penalty_factor := none }) rfl).2
  have hempty : geometric_neighbors
      { c1_merged 97656250 with penalty_factor := none } = [] := rfl
  have h2 := h (by rw [hempty]; intro n2 hn2; cases hn2) 2
  exact h2

/-- Counterexample to C1 as stated: every rectangle of c1_instance fits within the
bin capacity, the driver's run converges (some, so the Rust loop terminates with
this very value), and the returned solution has a placement pair with nonzero
intersection area. -/
theorem run_overlapping_counterexample :
    c1_instance.rects.all (fun r =>
      decide (r.width ≤ c1_instance.box_size) &&
      decide (r.height ≤ c1_instance.box_size)) = true ∧
    run_overlapping_ls 3 (create_trivial_solution c1_instance) = some c1_result ∧
    ¬no_overlap c1_result := by
  refine ⟨by decide, ?_, by decide⟩
  unfold run_overlapping_ls
  rw [show (create_trivial_solution c1_instance).with_penalty 10 = c1_start from rfl]
  simp only [c1_phases]
  exact c1_final_geo

/-- Claim C1 as amended: the final geometric local search preserves the overlap-free
invariant but cannot in general create it, so the driver's result is overlap-free
whenever the solution produced by the annealing phases (with the penalty factor
then cleared) is overlap-free. -/
theorem run_overlapping_ls_no_overlap (fuel : Nat) (start_sol mid r : RectangleSolution)
    (hphases : run_overlapping_phases fuel 10 1 (start_sol.with_penalty 10) = some mid)
    (hno : no_overlap mid)
    (hrun : run_overlapping_ls fuel start_sol = some r) : no_overlap r := by
  unfold run_overlapping_ls at hrun
  rw [hphases] at hrun
  refine solve_preserves no_overlap _ _ _ ?_ fuel _ r hrun ?_
  · intro s2 l hl n hn hno2
    have hl2 : l = geometric_neighbors s2 := by
      unfold GeometricNeighborhood.neighbors at hl
      exact (Option.some_injective _ hl).symm
    rw [hl2] at hn
    exact no_overlap_geometric s2 n hn hno2
  · intro b hb
    exact hno b hb

/-- On the single-rectangle state the only neighbor re-creates the same single bin,
which never strictly improves, so every phase stalls immediately. -/
theorem c1w_stall (percent : ℚ) (pen : Int) (fuel : Nat) :
    LocalSearch.solve RectangleSolution.cost lexLt
      (OverlappingNeighborhood.neighbors percent) (fuel + 1) (c1w_mid0 pen) =
      some (c1w_mid0 pen) := by
  refine (local_search_first_improvement _ _ _ _ _ rfl).2 ?_ fuel
  intro n2 hn2
  have hl : overlap_moves (c1w_mid0 pen) percent = [c1w_mid0 pen] := rfl
  rw [hl] at hn2
  obtain rfl : n2 = c1w_mid0 pen := by simpa using hn2
  exact lexLt_irrefl _

/-- The ten phases on c1w_instance only grow the penalty factor. -/
theorem c1w_phases :
    run_overlapping_phases 3 10 1
      ((create_trivial_solution c1w_instance).with_penalty 10) =
      some (c1w_mid0 97656250) := by
  rw [show (create_trivial_solution c1w_instance).with_penalty 10 = c1w_mid0 10
    from rfl]
  rw [phases_step 3 9 _ _ (c1w_mid0 10) 10 (c1w_stall _ 10 2) rfl]
  rw [show ({ c1w_mid0 10 with penalty_factor := some (10 * 5) } : RectangleSolution)
    = c1w_mid0 50 from rfl]
  rw [phases_step 3 8 _ _ (c1w_mid0 50) 50 (c1w_stall _ 50 2) rfl]
  rw [show ({ c1w_mid0 50 with penalty_factor := some (50 * 5) } : RectangleSolution)
    = c1w_mid0 250 from rfl]
  rw [phases_step 3 7 _ _ (c1w_mid0 250) 250 (c1w_stall _ 250 2) rfl]
  rw [show ({ c1w_mid0 250 with penalty_factor := some (250 * 5) } : RectangleSolution)
    = c1w_mid0 1250 from rfl]
  rw [phases_step 3 6 _ _ (c1w_mid0 1250) 1250 (c1w_stall _ 1250 2) rfl]
  rw [show ({ c1w_mid0 1250 with penalty_factor := some (1250 * 5) } : RectangleSolution)
    = c1w_mid0 6250 from rfl]
  rw [phases_step 3 5 _ _ (c1w_mid0 6250) 6250 (c1w_stall _ 6250 2) rfl]
  rw [show ({ c1w_mid0 6250 with penalty_factor := some (6250 * 5) } : RectangleSolution)
    = c1w_mid0 31250 from rfl]
  rw [phases_step 3 4 _ _ (c1w_mid0 31250) 31250 (c1w_stall _ 31250 2) rfl]
  rw [show ({ c1w_mid0 31250 with penalty_factor := some (31250 * 5) } :
    RectangleSolution) = c1w_mid0 156250 from rfl]
  rw [phases_step 3 3 _ _ (c1w_mid0 156250) 156250 (c1w_stall _ 156250 2) rfl]
  rw [show ({ c1w_mid0 156250 with penalty_factor := some (156250 * 5) } :
    RectangleSolution) = c1w_mid0 781250 from rfl]
  rw [phases_step 3 2 _ _ (c1w_mid0 781250) 781250 (c1w_stall _ 781250 2) rfl]
  rw [show ({ c1w_mid0 781250 with penalty_factor := some (781250 * 5) } :
    RectangleSolution) = c1w_mid0 3906250 from rfl]
  rw [phases_step 3 1 _ _ (c1w_mid0 3906250) 3906250 (c1w_stall _ 3906250 2) rfl]
  rw [show ({ c1w_mid0 3906250 with penalty_factor := some (3906250 * 5) } :
    RectangleSolution) = c1w_mid0 19531250 from rfl]
  rw [phases_step 3 0 _ _ (c1w_mid0 19531250) 19531250 (c1w_stall _ 19531250 2) rfl]
  rw [show ({ c1w_mid0 19531250 with penalty_factor := some (19531250 * 5) } :
    RectangleSolution) = c1w_mid0 97656250 from rfl]
  rw [run_overlapping_phases]

/-- The driver's full run on c1w_instance. -/
theorem c1w_run :
    run_overlapping_ls 3 (create_trivial_solution c1w_instance) = some c1w_result := by
  unfold run_overlapping_ls
  simp only [c1w_phases]
  have h := (local_search_first_improvement RectangleSolution.cost lexLt
    GeometricNeighborhood.neighbors
    { c1w_mid0 97656250 with penalty_factor := none }
    (geometric_neighbors { c1w_mid0 97656250 with penalty_factor := none }) rfl).2
  have hstep : ∀ n2 ∈ geometric_neighbors
      { c1w_mid0 97656250 with penalty_factor := none },
      lexLt (RectangleSolution.cost n2)
        (RectangleSolution.cost { c1w_mid0 97656250 with penalty_factor := none }) =
        false := by
    rw [show geometric_neighbors { c1w_mid0 97656250 with penalty_factor := none } = []
      from rfl]
    intro n2 hn2
    cases hn2
  exact h hstep 2

/-- Witness for the amended C1 at a concrete run whose phases end overlap-free. -/
theorem run_overlapping_ls_no_overlap_witness : no_overlap c1w_result :=
  run_overlapping_ls_no_overlap 3 (create_trivial_solution c1w_instance)
    (c1w_mid0 97656250) c1w_result c1w_phases (by decide) c1w_run

/-- Claim C8: no geometric neighbor has more bins than the input solution, and a
geometric local search never returns a solution with more bins than it started
from. -/
theorem geometric_bin_count (sol : RectangleSolution) :
    (∀ n ∈ geometric_neighbors sol, n.boxes.length ≤ sol.boxes.length) ∧
    (∀ fuel r, LocalSearch.solve RectangleSolution.cost lexLt
        GeometricNeighborhood.neighbors fuel sol = some r →
      r.boxes.length ≤ sol.boxes.length) := by
  refine ⟨fun n hn => geometric_neighbors_length_le sol n hn, ?_⟩
  intro fuel r h
  refine solve_preserves (fun s2 => s2.boxes.length ≤ sol.boxes.length) _ _ _ ?_
    fuel sol r h (Nat.le_refl _)
  intro s2 l hl n hn hle
  have hl2 : l = geometric_neighbors s2 := by
    unfold GeometricNeighborhood.neighbors at hl
    exact (Option.some_injective _ hl).symm
  rw [hl2] at hn
  exact Nat.le_trans (geometric_neighbors_length_le s2 n hn) hle

/-- Witness for C8 at a concrete run: the consolidated result has no more bins. -/
theorem geometric_bin_count_witness : c8_result.boxes.length ≤ c8_sol.boxes.length :=
  (geometric_bin_count c8_sol).2 3 c8_result (by decide)

/-- Claim C9: a rectangle that fits within capacity is always accepted by a freshly
created empty bin at the origin, so RectangleGreedyState::apply never reaches its
panic branch for such a rectangle. -/
theorem greedy_new_bin_safe (st : RectangleGreedyState) (rect : Rect)
    (hw : rect.width ≤ st.solution.inst.box_size)
    (hh : rect.height ≤ st.solution.inst.box_size) :
    ((BoxBin.new st.solution.inst.box_size).try_place rect 0 0 false).1 = true ∧
    (st.apply rect).isSome := by
  have hcp : (BoxBin.new st.solution.inst.box_size).can_place rect 0 0 false = true := by
    rw [can_place_iff]
    refine ⟨?_, ?_, ?_⟩
    · simp only [Placement.width, BoxBin.new]
      simpa using hw
    · simp only [Placement.height, BoxBin.new]
      simpa using hh
    · intro e he
      simp [BoxBin.new] at he
  have h1 : ((BoxBin.new st.solution.inst.box_size).try_place rect 0 0 false).1 = true := by
    rw [try_place_eq, if_pos hcp]
  refine ⟨h1, ?_⟩
  unfold RectangleGreedyState.apply
  cases hpb : place_in_boxes rect st.solution.boxes with
  | some bs => simp [hpb]
  | none => simp [hpb, h1]

/-- Witness for C9 at a concrete input. -/
theorem greedy_new_bin_safe_witness :
    ((BoxBin.new 10).try_place ⟨0, 4, 6⟩ 0 0 false).1 = true ∧
    (c9_state.apply ⟨0, 4, 6⟩).isSome :=
  greedy_new_bin_safe c9_state ⟨0, 4, 6⟩ (by decide) (by decide)

/-- Claim C10: every geometric neighbor carries exactly the same multiset of
rectangles as the input solution — the move neither duplicates nor drops any
rectangle. -/
theorem geometric_frame (sol n : RectangleSolution)
    (h : n ∈ geometric_neighbors sol) : (all_rects n).Perm (all_rects sol) := by
  obtain ⟨src, p, tgt, xyr, hsrc, hp, htgt, hne, hfind, hn⟩ :=
    (mem_geometric_neighbors sol n).mp h
  rw [hn]
  exact all_rects_relocate sol src p tgt xyr.1 xyr.2.1 xyr.2.2 hsrc htgt hne hp

/-- Witness for C10 at a concrete move. -/
theorem geometric_frame_witness : (all_rects c10_neighbor).Perm (all_rects c10_sol) :=
  geometric_frame c10_sol c10_neighbor (by decide)

end Claims

end Packing

